import Mathlib

/-!
Verification development for the 5:15 weekly-report agent.

The TypeScript sources are shallowly embedded here:
* `src/synthesis/matcher.ts` — the correlation engine (`matchNotesToEvents`,
  `calculateMatchScore`, `calculateTitleSimilarity`);
* `src/synthesis/draft.ts` — the aggregation orchestrator (`synthesizeDraft`)
  and the response parser (`parseDraftResponse`);
* `src/output/markdown.ts` — `formatDraftAsMarkdown`;
* `src/collectors/granola-local.ts` — the local-cache note collector
  (`loadGranolaCache`, `extractStructuredNotes`, `extractActionItems`,
  `getThisWeeksNotes`, `isGranolaCacheAvailable`);
* the Notion granola collector's `extractActionItems` variant.

Strings are handled as `List Char`; instants as integer epoch milliseconds;
JavaScript numbers as `ℚ` (all arithmetic in scope is on small fractions with
exact decimal constants).  JavaScript regular expressions used by the sources
are embedded operationally, reproducing the backtracking behaviour of the
concrete patterns appearing in the code.
-/

namespace FiveFifteen

/-! ## JavaScript string primitives -/

/-- The ASCII whitespace characters matched by JavaScript `\s`
(the sources only ever meet ASCII whitespace). -/
def jsWsChar (c : Char) : Bool :=
  c = ' ' || c = '\t' || c = '\n' || c = '\r' || c = '\x0b' || c = '\x0c'

/-- ASCII lowercasing, the fragment of `String.prototype.toLowerCase`
exercised by the sources. -/
def lcCh (c : Char) : Char :=
  if 'A' ≤ c ∧ c ≤ 'Z' then Char.ofNat (c.toNat + 32) else c

/-- Case-insensitive character comparison (JS `/i` flag on ASCII data). -/
def lcEqCh (a b : Char) : Bool := lcCh a == lcCh b

/-- `lcMatches pat s`: `pat` is a case-insensitive prefix of `s`. -/
def lcMatches : List Char → List Char → Bool
  | [], _ => true
  | _ :: _, [] => false
  | p :: ps, c :: cs => lcEqCh p c && lcMatches ps cs

/-- Case-insensitive substring occurrence. -/
def occursCI (pat : List Char) : List Char → Bool
  | [] => lcMatches pat []
  | c :: rest => lcMatches pat (c :: rest) || occursCI pat rest

/-- Drop JS whitespace from both ends (JS `String.prototype.trim`). -/
def jsTrimList (l : List Char) : List Char :=
  ((l.dropWhile jsWsChar).reverse.dropWhile jsWsChar).reverse

/-- JS `s.trim()` at `String` level. -/
def jsTrim (s : String) : String := String.mk (jsTrimList s.data)

/-- JS `s.split('\n')`: split at every newline, keeping empty fields. -/
def splitNl : List Char → List (List Char)
  | [] => [[]]
  | c :: rest =>
    if c = '\n' then [] :: splitNl rest
    else
      match splitNl rest with
      | f :: fs => (c :: f) :: fs
      | [] => [[c]]

/-- Worker for JS `s.split(/\s+/)`.  `inSep` is true while consuming a
whitespace run whose field has already been flushed; `cur` is the reversed
current field. -/
def splitWsGo : Bool → List Char → List Char → List (List Char)
  | _, [], cur => [cur.reverse]
  | inSep, c :: rest, cur =>
    if jsWsChar c then
      if inSep then splitWsGo true rest cur
      else cur.reverse :: splitWsGo true rest []
    else splitWsGo false rest (c :: cur)

/-- JS `s.split(/\s+/)`: fields between maximal whitespace runs; an empty
first (last) field appears when the string starts (ends) with whitespace. -/
def splitWs (l : List Char) : List (List Char) := splitWsGo false l []

/-- Join with a single-character separator, JS `Array.prototype.join`. -/
def joinWith (sep : String) : List String → String
  | [] => ""
  | [s] => s
  | s :: rest => s ++ sep ++ joinWith sep rest

/-- JS `parts.join(' ')`. -/
def joinSp : List String → String := joinWith " "

/-- JS `lines.join('\n')`. -/
def joinNl : List String → String := joinWith "\n"

/-! ## Data model (`src/collectors/calendar.ts`, `src/collectors/granola-local.ts`,
`src/synthesis/matcher.ts`, `src/synthesis/draft.ts`) -/

/-- Self-response status of a calendar event
(`CalendarEvent.myResponseStatus` in `src/collectors/calendar.ts`). -/
inductive ResponseStatus where
  | accepted
  | declined
  | tentative
  | needsAction
  | unknown
deriving DecidableEq

/-- `CalendarEvent` from `src/collectors/calendar.ts`.  `start`/`endTime` are
epoch milliseconds; fields not consumed by the core (description, meeting
link) are omitted. -/
structure CalendarEvent where
  id : String
  title : String
  start : Int
  endTime : Int
  attendees : List String
  isRecurring : Bool
  myResponseStatus : ResponseStatus
deriving DecidableEq

/-- `GranolaNote` from `src/collectors/granola-local.ts` (the Notion
collector produces the same shape).  `date` is epoch milliseconds. -/
structure GranolaNote where
  id : String
  title : String
  date : Int
  summary : Option String
  content : String
  attendees : List String
  actionItems : List String
  mentions : List String
deriving DecidableEq

/-- `MatchedMeeting` from `src/synthesis/matcher.ts`. -/
structure MatchedMeeting where
  event : CalendarEvent
  note : Option GranolaNote
  hasNotes : Bool
deriving DecidableEq

/-- `Draft515` from `src/synthesis/draft.ts`. -/
structure Draft515 where
  date : String
  tldr : String
  whatIDid : List String
  whatIAmThinkingAbout : String
  priorities : List String
  meetingsWithoutNotes : List String
deriving DecidableEq

/-! ## Correlation engine (`src/synthesis/matcher.ts`) -/

/-- A character kept by the JS replace `/[^\w\s]/g → ''`:
word characters (`\w`) and whitespace survive. -/
def keptChar (c : Char) : Bool :=
  (('a' ≤ c && c ≤ 'z') || ('A' ≤ c && c ≤ 'Z') ||
   ('0' ≤ c && c ≤ '9') || c = '_') || jsWsChar c

/-- The fixed filler words from `calculateTitleSimilarity`. -/
def fillerWords : List (List Char) :=
  ["sync", "meeting", "call", "chat", "discussion", "check", "weekly",
   "monthly"].map String.data

/-- The ignore set of `calculateTitleSimilarity`: the author's lowercased
full name, their first name, and the filler words, dropping empty entries
(the JS `filter(w => w.length > 0)`). -/
def ignoreWords (yourName : String) : List (List Char) :=
  let yn := yourName.data.map lcCh
  let firstName := (splitWs yn).headD []
  ([yn, firstName] ++ fillerWords).filter (· ≠ [])

/-- The `normalize` closure of `calculateTitleSimilarity`: lowercase, strip
non-word/non-space characters, split on whitespace runs, drop tokens of
length ≤ 2 and tokens in the ignore set. -/
def normalizeTitle (yourName : String) (s : String) : List (List Char) :=
  (((splitWs ((s.data.map lcCh).filter keptChar)).filter
      (fun w => w.length > 2)).filter
      (fun w => w ∉ ignoreWords yourName))

/-- `calculateTitleSimilarity` from `src/synthesis/matcher.ts`: token sets
(JS `Set` — duplicates collapse) of both normalized titles; similarity is
`|words1 ∩ words2| / max |words1| |words2|`, and `0` when either set is
empty. -/
def calculateTitleSimilarity (yourName : String) (title1 title2 : String) : ℚ :=
  let words1 := (normalizeTitle yourName title1).dedup
  let words2 := (normalizeTitle yourName title2).dedup
  if words1.length = 0 ∨ words2.length = 0 then 0
  else
    let matchCount := (words1.filter (· ∈ words2)).length
    (matchCount : ℚ) / (max words1.length words2.length : ℚ)

/-- `differenceInMinutes(a, b)` from date-fns: the millisecond difference
divided by 60000, truncated toward zero. -/
def differenceInMinutes (a b : Int) : Int := Int.tdiv (a - b) 60000

/-- `calculateMatchScore` from `src/synthesis/matcher.ts`: gate on title
similarity `< 0.25`, else `similarity * 0.6` plus the time-proximity bonus
on `Math.abs(differenceInMinutes(event.start, note.date))`. -/
def calculateMatchScore (yourName : String) (event : CalendarEvent)
    (note : GranolaNote) : ℚ :=
  let titleSimilarity := calculateTitleSimilarity yourName event.title note.title
  if titleSimilarity < 1/4 then 0
  else
    let score := titleSimilarity * (6/10)
    let timeDiff := (differenceInMinutes event.start note.date).natAbs
    if timeDiff < 30 then score + 4/10
    else if timeDiff < 120 then score + 3/10
    else if timeDiff < 240 then score + 1/10
    else score

/-- The inner loop of `matchNotesToEvents`: fold over `notes` carrying
`bestMatch`/`bestScore`, skipping notes whose id is in `usedNotes`, updating
on `score > bestScore && score > 0.3`. -/
def pickBestGo (yourName : String) (event : CalendarEvent)
    (usedNotes : List String) :
    List GranolaNote → Option GranolaNote → ℚ → Option GranolaNote
  | [], bestMatch, _ => bestMatch
  | note :: rest, bestMatch, bestScore =>
    if note.id ∈ usedNotes then
      pickBestGo yourName event usedNotes rest bestMatch bestScore
    else
      let score := calculateMatchScore yourName event note
      if score > bestScore ∧ score > 3/10 then
        pickBestGo yourName event usedNotes rest (some note) score
      else
        pickBestGo yourName event usedNotes rest bestMatch bestScore

/-- The per-event note search of `matchNotesToEvents`
(`bestMatch = null`, `bestScore = 0` initially). -/
def pickBest (yourName : String) (event : CalendarEvent)
    (usedNotes : List String) (notes : List GranolaNote) : Option GranolaNote :=
  pickBestGo yourName event usedNotes notes none 0

/-- The event loop of `matchNotesToEvents`, threading the `usedNotes` set
(modelled as the list of inserted ids). -/
def matchGo (yourName : String) (notes : List GranolaNote) :
    List CalendarEvent → List String → List MatchedMeeting
  | [], _ => []
  | event :: rest, usedNotes =>
    match pickBest yourName event usedNotes notes with
    | some bestMatch =>
      { event := event, note := some bestMatch, hasNotes := true } ::
        matchGo yourName notes rest (usedNotes ++ [bestMatch.id])
    | none =>
      { event := event, note := none, hasNotes := false } ::
        matchGo yourName notes rest usedNotes

/-- `matchNotesToEvents` from `src/synthesis/matcher.ts`. -/
def matchNotesToEvents (yourName : String) (events : List CalendarEvent)
    (notes : List GranolaNote) : List MatchedMeeting :=
  matchGo yourName notes events []

/-! ## C2: the scoring formula, as the specification words it -/

/-- Title similarity as worded by the specification: normalized token *sets*
of both titles, `|s1 ∩ s2| / max |s1| |s2|`, and `0` when either set is
empty. -/
def specTitleSimilarity (yourName : String) (title1 title2 : String) : ℚ :=
  let s1 := (normalizeTitle yourName title1).toFinset
  let s2 := (normalizeTitle yourName title2).toFinset
  if s1 = ∅ ∨ s2 = ∅ then 0
  else ((s1 ∩ s2).card : ℚ) / (max s1.card s2.card : ℚ)

/-- The score formula as worded by the specification: a hard gate at
similarity `< 0.25`, else `similarity * 0.6` plus the time bonus keyed on
the absolute difference in whole minutes between event start and note
date. -/
def specCalculateMatchScore (yourName : String) (event : CalendarEvent)
    (note : GranolaNote) : ℚ :=
  let similarity := specTitleSimilarity yourName event.title note.title
  if similarity < 1/4 then 0
  else
    let minutes := (event.start - note.date).natAbs / 60000
    similarity * (6/10) +
      (if minutes < 30 then 4/10
       else if minutes < 120 then 3/10
       else if minutes < 240 then 1/10
       else 0)

theorem natAbs_tdiv_ofNat (x : Int) (n : Nat) :
    (Int.tdiv x (Int.ofNat n)).natAbs = x.natAbs / n := by
  cases x with
  | ofNat m => simp only [Int.tdiv]; rfl
  | negSucc m => simp only [Int.tdiv, Int.natAbs_neg]; rfl

theorem dedup_filter_length_eq_inter_card (l1 l2 : List (List Char)) :
    (l1.dedup.filter (· ∈ l2.dedup)).length =
      (l1.toFinset ∩ l2.toFinset).card := by
  have h1 : (l1.dedup.filter (· ∈ l2.dedup)).Nodup :=
    (List.nodup_dedup l1).filter _
  rw [← List.toFinset_card_of_nodup h1, List.toFinset_filter]
  congr 1
  have hd : l1.dedup.toFinset = l1.toFinset := by
    ext x; simp [List.mem_dedup]
  rw [hd, ← Finset.filter_mem_eq_inter]
  apply Finset.filter_congr
  intro x _
  simp [List.mem_dedup]

theorem calculateTitleSimilarity_eq_spec (yourName title1 title2 : String) :
    calculateTitleSimilarity yourName title1 title2 =
      specTitleSimilarity yourName title1 title2 := by
  unfold calculateTitleSimilarity specTitleSimilarity
  simp only
  have hcard1 : (normalizeTitle yourName title1).dedup.length =
      (normalizeTitle yourName title1).toFinset.card :=
    (List.card_toFinset _).symm
  have hcard2 : (normalizeTitle yourName title2).dedup.length =
      (normalizeTitle yourName title2).toFinset.card :=
    (List.card_toFinset _).symm
  have hempty : ((normalizeTitle yourName title1).dedup.length = 0 ∨
      (normalizeTitle yourName title2).dedup.length = 0) ↔
      ((normalizeTitle yourName title1).toFinset = ∅ ∨
       (normalizeTitle yourName title2).toFinset = ∅) := by
    rw [List.length_eq_zero, List.length_eq_zero, List.dedup_eq_nil,
      List.dedup_eq_nil, List.toFinset_eq_empty_iff, List.toFinset_eq_empty_iff]
  by_cases h : (normalizeTitle yourName title1).toFinset = ∅ ∨
      (normalizeTitle yourName title2).toFinset = ∅
  · rw [if_pos (hempty.mpr h), if_pos h]
  · rw [if_neg (fun hc => h (hempty.mp hc)), if_neg h,
      dedup_filter_length_eq_inter_card, hcard1, hcard2]

/-- C2: `score(E,N)` is computed exactly as the specification describes:
normalized-token-set similarity `|∩| / max(|s1|,|s2|)` (0 on empty sets), a
hard zero whenever similarity `< 0.25`, and otherwise
`similarity * 0.6` plus the time bonus `+0.4 / +0.3 / +0.1 / +0` keyed on
the absolute minute difference thresholds `30 / 120 / 240`. -/
theorem C2_score_formula (yourName : String) (event : CalendarEvent)
    (note : GranolaNote) :
    calculateMatchScore yourName event note =
      specCalculateMatchScore yourName event note := by
  unfold calculateMatchScore specCalculateMatchScore
  rw [calculateTitleSimilarity_eq_spec]
  simp only
  by_cases hgate : specTitleSimilarity yourName event.title note.title < 1/4
  · rw [if_pos hgate, if_pos hgate]
  · rw [if_neg hgate, if_neg hgate]
    have hmin : (differenceInMinutes event.start note.date).natAbs =
        (event.start - note.date).natAbs / 60000 := by
      unfold differenceInMinutes
      exact natAbs_tdiv_ofNat _ 60000
    rw [hmin]
    by_cases h30 : (event.start - note.date).natAbs / 60000 < 30
    · rw [if_pos h30, if_pos h30]
    · rw [if_neg h30, if_neg h30]
      by_cases h120 : (event.start - note.date).natAbs / 60000 < 120
      · rw [if_pos h120, if_pos h120]
      · rw [if_neg h120, if_neg h120]
        by_cases h240 : (event.start - note.date).natAbs / 60000 < 240
        · rw [if_pos h240, if_pos h240]
        · rw [if_neg h240, if_neg h240]; ring

/-! ## C1 and C3: invariants and characterization of the greedy assignment -/

theorem pickBestGo_some_mem (yourName : String) (event : CalendarEvent)
    (usedNotes : List String) :
    ∀ (notes : List GranolaNote) (b : Option GranolaNote) (bs : ℚ)
      (n : GranolaNote),
      pickBestGo yourName event usedNotes notes b bs = some n →
      b = some n ∨ (n ∈ notes ∧ n.id ∉ usedNotes)
  | [], _, _, _, h => Or.inl h
  | note :: rest, b, bs, n, h => by
    rw [pickBestGo] at h
    by_cases hu : note.id ∈ usedNotes
    · rw [if_pos hu] at h
      rcases pickBestGo_some_mem yourName event usedNotes rest b bs n h with
        h1 | ⟨h2, h3⟩
      · exact Or.inl h1
      · exact Or.inr ⟨List.mem_cons_of_mem _ h2, h3⟩
    · rw [if_neg hu] at h
      simp only at h
      by_cases hs : calculateMatchScore yourName event note > bs ∧
          calculateMatchScore yourName event note > 3/10
      · rw [if_pos hs] at h
        rcases pickBestGo_some_mem yourName event usedNotes rest (some note) _ n h with
          h1 | ⟨h2, h3⟩
        · cases h1
          exact Or.inr ⟨List.mem_cons_self _ _, hu⟩
        · exact Or.inr ⟨List.mem_cons_of_mem _ h2, h3⟩
      · rw [if_neg hs] at h
        rcases pickBestGo_some_mem yourName event usedNotes rest b bs n h with
          h1 | ⟨h2, h3⟩
        · exact Or.inl h1
        · exact Or.inr ⟨List.mem_cons_of_mem _ h2, h3⟩

theorem pickBest_some_mem (yourName : String) (event : CalendarEvent)
    (usedNotes : List String) (notes : List GranolaNote) (n : GranolaNote)
    (h : pickBest yourName event usedNotes notes = some n) :
    n ∈ notes ∧ n.id ∉ usedNotes := by
  rcases pickBestGo_some_mem yourName event usedNotes notes none 0 n h with h1 | h2
  · cases h1
  · exact h2

theorem matchGo_map_event (yourName : String) (notes : List GranolaNote) :
    ∀ (events : List CalendarEvent) (usedNotes : List String),
      (matchGo yourName notes events usedNotes).map MatchedMeeting.event = events
  | [], _ => rfl
  | event :: rest, usedNotes => by
    rw [matchGo]
    cases h : pickBest yourName event usedNotes notes with
    | some n => simp [matchGo_map_event yourName notes rest]
    | none => simp [matchGo_map_event yourName notes rest]

theorem matchGo_hasNotes (yourName : String) (notes : List GranolaNote) :
    ∀ (events : List CalendarEvent) (usedNotes : List String)
      (m : MatchedMeeting), m ∈ matchGo yourName notes events usedNotes →
      m.hasNotes = m.note.isSome
  | [], _, _, h => absurd h (List.not_mem_nil _)
  | event :: rest, usedNotes, m, h => by
    rw [matchGo] at h
    cases hp : pickBest yourName event usedNotes notes with
    | some n =>
      rw [hp] at h
      rcases List.mem_cons.mp h with h1 | h2
      · subst h1; rfl
      · exact matchGo_hasNotes yourName notes rest _ m h2
    | none =>
      rw [hp] at h
      rcases List.mem_cons.mp h with h1 | h2
      · subst h1; rfl
      · exact matchGo_hasNotes yourName notes rest _ m h2

/-- The note ids attached by `matchGo` are pairwise distinct and disjoint
from the incoming `usedNotes` set. -/
theorem matchGo_attached_ids (yourName : String) (notes : List GranolaNote) :
    ∀ (events : List CalendarEvent) (usedNotes : List String),
      ((matchGo yourName notes events usedNotes).filterMap
          (fun m => m.note.map GranolaNote.id)).Nodup ∧
      ∀ i ∈ (matchGo yourName notes events usedNotes).filterMap
          (fun m => m.note.map GranolaNote.id), i ∉ usedNotes
  | [], _ => ⟨List.nodup_nil, by intro i h; exact absurd h (List.not_mem_nil _)⟩
  | event :: rest, usedNotes => by
    rw [matchGo]
    cases hp : pickBest yourName event usedNotes notes with
    | none =>
      simp only [List.filterMap_cons, Option.map_none']
      exact matchGo_attached_ids yourName notes rest usedNotes
    | some n =>
      have hn := pickBest_some_mem yourName event usedNotes notes n hp
      have ih := matchGo_attached_ids yourName notes rest (usedNotes ++ [n.id])
      simp only [List.filterMap_cons, Option.map_some']
      constructor
      · refine List.nodup_cons.mpr ⟨fun hmem => ?_, ih.1⟩
        have := ih.2 n.id hmem
        exact this (List.mem_append_right _ (List.mem_singleton_self _))
      · intro i hi
        rcases List.mem_cons.mp hi with h1 | h2
        · subst h1; exact hn.2
        · intro hiu
          exact ih.2 i h2 (List.mem_append_left _ hiu)

/-- A fixed calendar event used for concrete check inputs. -/
def sampleEvent : CalendarEvent :=
  { id := "ev1", title := "Design Sync", start := 0, endTime := 3600000,
    attendees := [], isRecurring := false, myResponseStatus := .accepted }

/-- C1 (amended): for every input, each output entry carries at most one
note (`hasNotes` mirrors the optional note), no note identity is attached
to more than one event, and the output events are exactly the input events
in order — hence no event appears twice whenever the input events are
pairwise distinct.  (A duplicated input event is reproduced once per
occurrence, see the counterexample.) -/
theorem C1_correlation_invariants (yourName : String)
    (events : List CalendarEvent) (notes : List GranolaNote) :
    (matchNotesToEvents yourName events notes).map MatchedMeeting.event = events ∧
    ((matchNotesToEvents yourName events notes).filterMap
        (fun m => m.note.map GranolaNote.id)).Nodup ∧
    (∀ m ∈ matchNotesToEvents yourName events notes,
        m.hasNotes = m.note.isSome) ∧
    (events.Nodup →
      ((matchNotesToEvents yourName events notes).map MatchedMeeting.event).Nodup) := by
  refine ⟨matchGo_map_event yourName notes events [],
    (matchGo_attached_ids yourName notes events []).1,
    fun m hm => matchGo_hasNotes yourName notes events [] m hm, fun hnd => ?_⟩
  unfold matchNotesToEvents
  rw [matchGo_map_event yourName notes events []]
  exact hnd

/-- Closed check for `C1_correlation_invariants`: its `events.Nodup`
hypothesis discharged on a concrete singleton input. -/
theorem C1_correlation_invariants_witness :
    ((matchNotesToEvents "Zack" [sampleEvent] []).map
        MatchedMeeting.event).Nodup :=
  (C1_correlation_invariants "Zack" [sampleEvent] []).2.2.2 (by decide)

/-- C1 counterexample: on an input list that contains the same event twice,
the output contains that event twice as well, so the claim's unconditional
"no event appears in the output more than once" fails. -/
theorem C1_duplicate_event_counterexample :
    (matchNotesToEvents "Zack" [sampleEvent, sampleEvent] []).map
        MatchedMeeting.event = [sampleEvent, sampleEvent] ∧
    ¬ ((matchNotesToEvents "Zack" [sampleEvent, sampleEvent] []).map
        MatchedMeeting.event).Nodup := by
  constructor
  · decide
  · decide

/-! ### C3: the spec-side greedy assignment -/

/-- The notes a given event may be matched with, as the specification words
it: not yet used, and combined score strictly above the `0.3` acceptance
threshold. -/
def eligibleNotes (yourName : String) (event : CalendarEvent)
    (usedNotes : List String) (notes : List GranolaNote) : List GranolaNote :=
  notes.filter (fun n => decide (n.id ∉ usedNotes) &&
    decide (calculateMatchScore yourName event n > 3/10))

/-- Spec-side selection: the highest-scoring eligible note; `List.argmax`
returns the first of the maximal elements, which is the specification's
first-seen tie-break. -/
def specPickNote (yourName : String) (event : CalendarEvent)
    (usedNotes : List String) (notes : List GranolaNote) : Option GranolaNote :=
  (eligibleNotes yourName event usedNotes notes).argmax
    (calculateMatchScore yourName event)

/-- Spec-side greedy pass: one output entry per event in input order, the
chosen note's id marked used for later events, `hasNotes = false` and no
note when nothing is eligible. -/
def specCorrelateGo (yourName : String) (notes : List GranolaNote) :
    List CalendarEvent → List String → List MatchedMeeting
  | [], _ => []
  | event :: rest, usedNotes =>
    match specPickNote yourName event usedNotes notes with
    | some n =>
      { event := event, note := some n, hasNotes := true } ::
        specCorrelateGo yourName notes rest (usedNotes ++ [n.id])
    | none =>
      { event := event, note := none, hasNotes := false } ::
        specCorrelateGo yourName notes rest usedNotes

/-- The correlation contract as the specification words it. -/
def specCorrelate (yourName : String) (events : List CalendarEvent)
    (notes : List GranolaNote) : List MatchedMeeting :=
  specCorrelateGo yourName notes events []

theorem pickBestGo_eq_argmax_foldl (yourName : String) (event : CalendarEvent)
    (usedNotes : List String) :
    ∀ (notes : List GranolaNote) (b : Option GranolaNote) (bs : ℚ),
      ((b = none ∧ bs = 0) ∨
        (∃ c, b = some c ∧ bs = calculateMatchScore yourName event c ∧
          3/10 < bs)) →
      pickBestGo yourName event usedNotes notes b bs =
        (eligibleNotes yourName event usedNotes notes).foldl
          (List.argAux fun x y =>
            calculateMatchScore yourName event y < calculateMatchScore yourName event x) b
  | [], b, bs, _ => by rw [pickBestGo]; rfl
  | note :: rest, b, bs, hinv => by
    rw [pickBestGo]
    by_cases hu : note.id ∈ usedNotes
    · rw [if_pos hu]
      have hfil : eligibleNotes yourName event usedNotes (note :: rest) =
          eligibleNotes yourName event usedNotes rest := by
        unfold eligibleNotes
        rw [List.filter_cons_of_neg]
        simp [hu]
      rw [hfil]
      exact pickBestGo_eq_argmax_foldl yourName event usedNotes rest b bs hinv
    · rw [if_neg hu]
      simp only
      by_cases hsc : calculateMatchScore yourName event note > 3/10
      · have hfil : eligibleNotes yourName event usedNotes (note :: rest) =
            note :: eligibleNotes yourName event usedNotes rest := by
          unfold eligibleNotes
          rw [List.filter_cons_of_pos]
          simp [hu, hsc]
        rw [hfil, List.foldl_cons]
        rcases hinv with ⟨hb, hbs⟩ | ⟨c, hb, hbs, hth⟩
        · subst hb; subst hbs
          have hcond : calculateMatchScore yourName event note > 0 ∧
              calculateMatchScore yourName event note > 3/10 :=
            ⟨lt_trans (by norm_num) hsc, hsc⟩
          rw [if_pos hcond]
          have : (List.argAux (fun x y =>
              calculateMatchScore yourName event y < calculateMatchScore yourName event x)
              none note) = some note := rfl
          rw [this]
          exact pickBestGo_eq_argmax_foldl yourName event usedNotes rest
            (some note) _ (Or.inr ⟨note, rfl, rfl, hsc⟩)
        · subst hb; subst hbs
          by_cases hgt : calculateMatchScore yourName event note >
              calculateMatchScore yourName event c
          · rw [if_pos ⟨hgt, hsc⟩]
            have : (List.argAux (fun x y =>
                calculateMatchScore yourName event y < calculateMatchScore yourName event x)
                (some c) note) = some note := by
              unfold List.argAux
              simp [hgt]
            rw [this]
            exact pickBestGo_eq_argmax_foldl yourName event usedNotes rest
              (some note) _ (Or.inr ⟨note, rfl, rfl, hsc⟩)
          · rw [if_neg (fun hc => hgt hc.1)]
            have : (List.argAux (fun x y =>
                calculateMatchScore yourName event y < calculateMatchScore yourName event x)
                (some c) note) = some c := by
              unfold List.argAux
              simp [hgt]
            rw [this]
            exact pickBestGo_eq_argmax_foldl yourName event usedNotes rest
              (some c) _ (Or.inr ⟨c, rfl, rfl, hth⟩)
      · have hfil : eligibleNotes yourName event usedNotes (note :: rest) =
            eligibleNotes yourName event usedNotes rest := by
          unfold eligibleNotes
          rw [List.filter_cons_of_neg]
          simp [hsc]
        rw [hfil, if_neg (fun hc => hsc hc.2)]
        exact pickBestGo_eq_argmax_foldl yourName event usedNotes rest b bs hinv

theorem pickBest_eq_specPick (yourName : String) (event : CalendarEvent)
    (usedNotes : List String) (notes : List GranolaNote) :
    pickBest yourName event usedNotes notes =
      specPickNote yourName event usedNotes notes :=
  pickBestGo_eq_argmax_foldl yourName event usedNotes notes none 0
    (Or.inl ⟨rfl, rfl⟩)

theorem matchGo_eq_specGo (yourName : String) (notes : List GranolaNote) :
    ∀ (events : List CalendarEvent) (usedNotes : List String),
      matchGo yourName notes events usedNotes =
        specCorrelateGo yourName notes events usedNotes
  | [], _ => rfl
  | event :: rest, usedNotes => by
    rw [matchGo, specCorrelateGo, pickBest_eq_specPick]
    cases specPickNote yourName event usedNotes notes with
    | some n => simp [matchGo_eq_specGo yourName notes rest]
    | none => simp [matchGo_eq_specGo yourName notes rest]

/-- C3: `matchNotesToEvents` is exactly the specification's greedy
single-pass assignment: one output entry per input event, in input order;
each event takes the highest-scoring note among the not-yet-used ones whose
combined score strictly exceeds `0.3` (first of the maximal ones on ties,
via `List.argmax`), that note's id is marked used, and an event with no
eligible note gets no note and `hasNotes = false`. -/
theorem C3_greedy_assignment (yourName : String) (events : List CalendarEvent)
    (notes : List GranolaNote) :
    matchNotesToEvents yourName events notes =
      specCorrelate yourName events notes :=
  matchGo_eq_specGo yourName notes events []

/-- Supporting characterization of the spec-side choice, from Mathlib's
`argmax` lemmas: a chosen note is an eligible note whose score dominates
every eligible note, and it is the earliest such note in `notes` order. -/
theorem specPickNote_characterization (yourName : String)
    (event : CalendarEvent) (usedNotes : List String)
    (notes : List GranolaNote) (n : GranolaNote)
    (h : specPickNote yourName event usedNotes notes = some n) :
    n ∈ notes ∧ n.id ∉ usedNotes ∧
    calculateMatchScore yourName event n > 3/10 ∧
    (∀ m ∈ notes, m.id ∉ usedNotes →
      calculateMatchScore yourName event m > 3/10 →
      calculateMatchScore yourName event m ≤ calculateMatchScore yourName event n) := by
  unfold specPickNote at h
  have hmem : n ∈ eligibleNotes yourName event usedNotes notes :=
    List.argmax_mem h
  have hmem' := List.mem_filter.mp hmem
  refine ⟨hmem'.1, ?_, ?_, ?_⟩
  · have := hmem'.2
    simp only [Bool.and_eq_true, decide_eq_true_eq] at this
    exact this.1
  · have := hmem'.2
    simp only [Bool.and_eq_true, decide_eq_true_eq] at this
    exact this.2
  · intro m hm hmu hms
    have hmelig : m ∈ eligibleNotes yourName event usedNotes notes := by
      unfold eligibleNotes
      refine List.mem_filter.mpr ⟨hm, ?_⟩
      simp [hmu, hms]
    exact List.le_of_mem_argmax hmelig h

/-! ## Response parser (`parseDraftResponse` in `src/synthesis/draft.ts`)

The parser applies the JS regexes
`/HDR\s*\n+([\s\S]*?)(?=###|$)/i` for the three headers.  Operationally:
the leftmost position where the header matches case-insensitively and is
followed by whitespace containing at least one newline wins; backtracking
of greedy `\s*` against `\n+` puts the capture start right after the last
newline of that whitespace run; the lazy capture with lookahead ends at the
first `###` after the capture start, or at end of input. -/

/-- Does the text start with the three-character sequence `###`? -/
def hash3 : List Char → Bool
  | c1 :: c2 :: c3 :: _ => c1 = '#' && c2 = '#' && c3 = '#'
  | _ => false

/-- The lazy capture `([\s\S]*?)(?=###|$)`: everything up to the first
`###`, or to the end of the text. -/
def captureUntil : List Char → List Char
  | [] => []
  | c :: rest => if hash3 (c :: rest) then [] else c :: captureUntil rest

/-- The suffix of a whitespace run after its last newline. -/
def afterLastNl (w : List Char) : List Char :=
  (w.reverse.takeWhile (· ≠ '\n')).reverse

/-- Try the regex at the current position: case-insensitive header literal,
then `\s*\n+` (the following whitespace run must contain a newline; the
capture starts after its last newline), then the lazy capture. -/
def matchAt (hdr s : List Char) : Option (List Char) :=
  if lcMatches hdr s then
    let r := s.drop hdr.length
    let w := r.takeWhile jsWsChar
    if '\n' ∈ w then
      some (captureUntil (afterLastNl w ++ r.dropWhile jsWsChar))
    else none
  else none

/-- The regex engine's left-to-right scan for the first match. -/
def findCapture (hdr : List Char) : List Char → Option (List Char)
  | [] => none
  | c :: rest =>
    match matchAt hdr (c :: rest) with
    | some cap => some cap
    | none => findCapture hdr rest

/-- The fixed fallback for a missing or blank TLDR section. -/
def tldrPlaceholder : String := "Draft your TLDR here."

/-- `line.trim().startsWith('-') || line.trim().startsWith('•')`. -/
def isBulletLine (l : List Char) : Bool :=
  match jsTrimList l with
  | c :: _ => c = '-' || c = '•'
  | [] => false

/-- A character of the leading-marker class `[\s\-•]`. -/
def bulletMarkerChar (c : Char) : Bool := jsWsChar c || c = '-' || c = '•'

/-- `line.replace(/^[\s\-•]+/, '').trim()`. -/
def stripBullet (l : List Char) : List Char :=
  jsTrimList (l.dropWhile bulletMarkerChar)

/-- The bullet-list extraction applied to the "What I did" and
"prioritizing" captures: split on newlines, keep lines whose trim starts
with `-` or `•`, strip the leading marker run and trim, drop empties. -/
def parseBulletSection (cap : List Char) : List String :=
  (((splitNl cap).filter isBulletLine).map
    (fun l => String.mk (stripBullet l))).filter (fun s => s ≠ "")

/-- `parseDraftResponse` from `src/synthesis/draft.ts`. -/
def parseDraftResponse (response today : String)
    (matchedMeetings : List MatchedMeeting) : Draft515 :=
  let tldr :=
    match findCapture "TLDR".data response.data with
    | some c =>
      let t := jsTrimList c
      if t = [] then tldrPlaceholder else String.mk t
    | none => tldrPlaceholder
  let whatIDid :=
    match findCapture "What I did".data response.data with
    | some c => parseBulletSection c
    | none => []
  let priorities :=
    match findCapture "prioritizing next week".data response.data with
    | some c => parseBulletSection c
    | none => []
  { date := today
    tldr := tldr
    whatIDid := whatIDid
    whatIAmThinkingAbout := "<!-- Your reflections here -->"
    priorities := priorities
    meetingsWithoutNotes :=
      (matchedMeetings.filter (fun m => !m.hasNotes)).map
        (fun m => m.event.title) }

/-- The specification's worked reply for the response parser. -/
def sampleReply : String :=
  "### TLDR\nDid stuff\n### What I did\n- Shipped X\n- Fixed Y\n### prioritizing next week\n- Ship Z"

/-- C4: the parser extracts the three sections (captures ending at the next
`###` or end of text, bullet lines stripped of their markers), yields the
expected fields on the specification's worked reply, and falls back to the
fixed placeholder / empty lists when a section is missing, never an
error. -/
theorem C4_response_parsing (today : String) (mm : List MatchedMeeting)
    (resp : String) :
    ((parseDraftResponse sampleReply today mm).tldr = "Did stuff" ∧
     (parseDraftResponse sampleReply today mm).whatIDid =
        ["Shipped X", "Fixed Y"] ∧
     (parseDraftResponse sampleReply today mm).priorities = ["Ship Z"]) ∧
    (findCapture "TLDR".data resp.data = none →
      (parseDraftResponse resp today mm).tldr = tldrPlaceholder) ∧
    (findCapture "What I did".data resp.data = none →
      (parseDraftResponse resp today mm).whatIDid = []) ∧
    (findCapture "prioritizing next week".data resp.data = none →
      (parseDraftResponse resp today mm).priorities = []) := by
  refine ⟨⟨rfl, rfl, rfl⟩, fun h => ?_, fun h => ?_, fun h => ?_⟩
  · simp only [parseDraftResponse, h]
  · simp only [parseDraftResponse, h]
  · simp only [parseDraftResponse, h]

/-- Closed check for `C4_response_parsing` on a reply with no section
headers at all. -/
theorem C4_response_parsing_witness :
    (parseDraftResponse "just words" "D" []).tldr = tldrPlaceholder ∧
    (parseDraftResponse "just words" "D" []).whatIDid = [] ∧
    (parseDraftResponse "just words" "D" []).priorities = [] :=
  ⟨(C4_response_parsing "D" [] "just words").2.1 (by decide),
   (C4_response_parsing "D" [] "just words").2.2.1 (by decide),
   (C4_response_parsing "D" [] "just words").2.2.2 (by decide)⟩

theorem jsTrimList_eq_nil_of_all_ws {l : List Char} (h : l.all jsWsChar) :
    jsTrimList l = [] := by
  unfold jsTrimList
  have h1 : l.dropWhile jsWsChar = [] := by
    rw [List.dropWhile_eq_nil_iff]
    intro x hx
    exact List.all_eq_true.mp h x hx
  rw [h1]
  rfl

/-- C10: the parsed `tldr` is never empty — a missing TLDR header, and a
TLDR capture consisting only of whitespace, both give the fixed placeholder
`"Draft your TLDR here."` — and every extracted bullet of `whatIDid` and
`priorities` is a non-empty string. -/
theorem C10_parsed_fields_nonempty (response today : String)
    (mm : List MatchedMeeting) :
    (parseDraftResponse response today mm).tldr ≠ "" ∧
    (findCapture "TLDR".data response.data = none →
      (parseDraftResponse response today mm).tldr = tldrPlaceholder) ∧
    (∀ c, findCapture "TLDR".data response.data = some c →
      c.all jsWsChar →
      (parseDraftResponse response today mm).tldr = tldrPlaceholder) ∧
    (∀ s ∈ (parseDraftResponse response today mm).whatIDid, s ≠ "") ∧
    (∀ s ∈ (parseDraftResponse response today mm).priorities, s ≠ "") := by
  refine ⟨?_, fun h => by simp only [parseDraftResponse, h],
    fun c hc hws => ?_, fun s hs => ?_, fun s hs => ?_⟩
  · show (match findCapture "TLDR".data response.data with
      | some c =>
        let t := jsTrimList c
        if t = [] then tldrPlaceholder else String.mk t
      | none => tldrPlaceholder) ≠ ""
    cases h : findCapture "TLDR".data response.data with
    | none => decide
    | some c =>
      simp only
      by_cases ht : jsTrimList c = []
      · rw [if_pos ht]; decide
      · rw [if_neg ht]
        intro hcontra
        apply ht
        have : (String.mk (jsTrimList c)).data = ("" : String).data := by
          rw [hcontra]
        exact this
  · simp [parseDraftResponse, hc, jsTrimList_eq_nil_of_all_ws hws]
  · revert hs
    show s ∈ (match findCapture "What I did".data response.data with
      | some c => parseBulletSection c
      | none => []) → s ≠ ""
    cases h : findCapture "What I did".data response.data with
    | none => intro hs; exact absurd hs (List.not_mem_nil _)
    | some c =>
      intro hs
      have := (List.mem_filter.mp hs).2
      simpa using this
  · revert hs
    show s ∈ (match findCapture "prioritizing next week".data response.data with
      | some c => parseBulletSection c
      | none => []) → s ≠ ""
    cases h : findCapture "prioritizing next week".data response.data with
    | none => intro hs; exact absurd hs (List.not_mem_nil _)
    | some c =>
      intro hs
      have := (List.mem_filter.mp hs).2
      simpa using this

/-- Closed check for `C10_parsed_fields_nonempty` on a reply whose TLDR
section is present but blank. -/
theorem C10_parsed_fields_nonempty_witness :
    (parseDraftResponse "### TLDR\n  \n### What I did\n- ok" "D" []).tldr =
      tldrPlaceholder ∧
    ("ok" : String) ≠ "" :=
  ⟨(C10_parsed_fields_nonempty "### TLDR\n  \n### What I did\n- ok" "D" []).2.2.1
      [] (by decide) (by decide),
   (C10_parsed_fields_nonempty "### TLDR\n  \n### What I did\n- ok" "D" []).2.2.2.1
      "ok" (by decide)⟩

/-! ## Structured notes extractor
(`extractStructuredNotes` in `src/collectors/granola-local.ts`) -/

/-- `RawContentNode` from `src/collectors/granola-local.ts`, plus a `jnull`
constructor for a JSON `null` appearing inside a content array (skipped by
the source's `item && typeof item === 'object'` guard). -/
inductive RawContentNode where
  | jnull : RawContentNode
  | node (type : Option String) (text : Option String)
      (content : Option (List RawContentNode)) : RawContentNode

/-- The source's leaf test `item.type === 'text' && item.text`
(`item.text` is truthy exactly when present and non-empty). -/
def isTextLeaf (type text : Option String) : Prop :=
  type = some "text" ∧ text.getD "" ≠ ""

instance (type text : Option String) : Decidable (isTextLeaf type text) := by
  unfold isTextLeaf; infer_instance

mutual
/-- The parts contributed by one node inside `extractText`: a text leaf
pushes its text; otherwise, a node with a `content` array pushes the joined
string of its children as a single part. -/
def nodeParts : RawContentNode → List String
  | .jnull => []
  | .node t x c => if isTextLeaf t x then [x.getD ""] else optParts c

/-- Parts for the optional `content` field (`else if (item.content)`). -/
def optParts : Option (List RawContentNode) → List String
  | some l => [joinSp (listParts l)]
  | none => []

/-- The `parts` accumulated by `extractText` over a content list. -/
def listParts : List RawContentNode → List String
  | [] => []
  | n :: rest => nodeParts n ++ listParts rest
end

/-- The inner `extractText` of `extractStructuredNotes`:
`parts.join(' ')`. -/
def extractText (contentList : List RawContentNode) : String :=
  joinSp (listParts contentList)

/-- `extractStructuredNotes` from `src/collectors/granola-local.ts`; the
argument is the `content` field of `notesData` (`none` for a null/missing
object or field; the `!notesData || !notesData.content` guard returns `""`,
and a present-but-empty array also yields `""` through `extractText`). -/
def extractStructuredNotes : Option (List RawContentNode) → String
  | none => ""
  | some content => extractText content

mutual
/-- The depth-first leaf texts of one node (same branch structure as
`nodeParts`). -/
def nodeLeaves : RawContentNode → List String
  | .jnull => []
  | .node t x c => if isTextLeaf t x then [x.getD ""] else optLeaves c

def optLeaves : Option (List RawContentNode) → List String
  | some l => listLeaves l
  | none => []

/-- Depth-first leaf texts of a content list. -/
def listLeaves : List RawContentNode → List String
  | [] => []
  | n :: rest => nodeLeaves n ++ listLeaves rest
end

mutual
/-- Every recursed-into container of the subtree has at least one leaf
(the condition under which no empty fragment is ever pushed). -/
def nodeGood : RawContentNode → Bool
  | .jnull => true
  | .node t x c => if isTextLeaf t x then true else optGood c

def optGood : Option (List RawContentNode) → Bool
  | some l => !(listLeaves l).isEmpty && listGood l
  | none => true

def listGood : List RawContentNode → Bool
  | [] => true
  | n :: rest => nodeGood n && listGood rest
end

theorem joinSp_append (A B : List String) (hA : A ≠ []) (hB : B ≠ []) :
    joinSp (A ++ B) = joinSp A ++ " " ++ joinSp B := by
  induction A with
  | nil => exact absurd rfl hA
  | cons a A ih =>
    cases A with
    | nil =>
      cases B with
      | nil => exact absurd rfl hB
      | cons b B => simp [joinSp, joinWith]
    | cons a2 A2 =>
      have h2 : joinSp ((a2 :: A2) ++ B) = joinSp (a2 :: A2) ++ " " ++ joinSp B :=
        ih (by simp)
      show joinSp (a :: ((a2 :: A2) ++ B)) = joinSp (a :: a2 :: A2) ++ " " ++ joinSp B
      have e1 : joinSp (a :: ((a2 :: A2) ++ B)) =
          a ++ " " ++ joinSp ((a2 :: A2) ++ B) := by
        simp [joinSp, joinWith]
      have e2 : joinSp (a :: a2 :: A2) = a ++ " " ++ joinSp (a2 :: A2) := by
        simp [joinSp, joinWith]
      rw [e1, e2, h2]
      simp [String.append_assoc]

theorem joinSp_glue (A B A' B' : List String)
    (h1 : joinSp A = joinSp B) (h2 : joinSp A' = joinSp B')
    (e1 : A = [] ↔ B = []) (e2 : A' = [] ↔ B' = []) :
    joinSp (A ++ A') = joinSp (B ++ B') ∧ (A ++ A' = [] ↔ B ++ B' = []) := by
  by_cases hA : A = []
  · have hB : B = [] := e1.mp hA
    subst hA; subst hB
    simpa using ⟨h2, e2⟩
  · have hB : B ≠ [] := fun h => hA (e1.mpr h)
    by_cases hA' : A' = []
    · have hB' : B' = [] := e2.mp hA'
      subst hA'; subst hB'
      simpa using ⟨h1, e1⟩
    · have hB' : B' ≠ [] := fun h => hA' (e2.mpr h)
      constructor
      · rw [joinSp_append A A' hA hA', joinSp_append B B' hB hB', h1, h2]
      · simp [hA, hB]

mutual
theorem nodeFlatten : ∀ n : RawContentNode, nodeGood n = true →
    joinSp (nodeParts n) = joinSp (nodeLeaves n) ∧
      (nodeParts n = [] ↔ nodeLeaves n = [])
  | .jnull, _ => ⟨rfl, Iff.rfl⟩
  | .node t x c, h => by
    rw [nodeParts, nodeLeaves]
    rw [nodeGood] at h
    by_cases hleaf : isTextLeaf t x
    · simp [if_pos hleaf]
    · simp only [if_neg hleaf]
      simp only [if_neg hleaf] at h
      exact optFlatten c h

theorem optFlatten : ∀ c : Option (List RawContentNode), optGood c = true →
    joinSp (optParts c) = joinSp (optLeaves c) ∧
      (optParts c = [] ↔ optLeaves c = [])
  | none, _ => ⟨rfl, Iff.rfl⟩
  | some l, h => by
    rw [optParts, optLeaves]
    rw [optGood, Bool.and_eq_true] at h
    obtain ⟨hne, hg⟩ := h
    have hll : listLeaves l ≠ [] := by
      intro hc
      rw [hc] at hne
      simp at hne
    have hfl := listFlatten l hg
    constructor
    · show joinSp [joinSp (listParts l)] = joinSp (listLeaves l)
      have : joinSp [joinSp (listParts l)] = joinSp (listParts l) := rfl
      rw [this, hfl.1]
    · constructor
      · intro hc; cases hc
      · intro hc; exact absurd hc hll

theorem listFlatten : ∀ l : List RawContentNode, listGood l = true →
    joinSp (listParts l) = joinSp (listLeaves l) ∧
      (listParts l = [] ↔ listLeaves l = [])
  | [], _ => ⟨rfl, Iff.rfl⟩
  | n :: rest, h => by
    rw [listParts, listLeaves]
    rw [listGood, Bool.and_eq_true] at h
    have hn := nodeFlatten n h.1
    have hr := listFlatten rest h.2
    exact joinSp_glue _ _ _ _ hn.1 hr.1 hn.2 hr.2
end

/-- A content list whose middle container holds no recognized leaf. -/
def emptyContainerExample : List RawContentNode :=
  [ .node (some "text") (some "a") none,
    .node none none (some [ .node (some "hr") none none ]),
    .node (some "text") (some "b") none ]

/-- C9 counterexample: a container whose subtree has no leaf contributes an
*empty fragment*, not nothing — `join(' ')` then doubles the separator, so
the output is not the depth-first leaf texts joined with single spaces. -/
theorem C9_empty_container_counterexample :
    extractStructuredNotes (some emptyContainerExample) = "a  b" ∧
    joinSp (listLeaves emptyContainerExample) = "a b" ∧
    extractStructuredNotes (some emptyContainerExample) ≠
      joinSp (listLeaves emptyContainerExample) := by
  refine ⟨rfl, rfl, by decide⟩

/-- C9 (amended): the extractor is total, returns `""` on a missing/null or
empty content node, and — provided every container carrying a child list
has at least one leaf in its subtree — returns exactly the depth-first leaf
texts joined with single spaces.  (Without that proviso a leafless
container contributes an empty fragment and a doubled separator.) -/
theorem C9_depth_first_flattening :
    extractStructuredNotes none = "" ∧
    extractStructuredNotes (some []) = "" ∧
    (∀ l, listGood l = true →
      extractStructuredNotes (some l) = joinSp (listLeaves l)) := by
  refine ⟨rfl, rfl, fun l h => ?_⟩
  show joinSp (listParts l) = joinSp (listLeaves l)
  exact (listFlatten l h).1

/-- A depth-5 nesting with leaves only at the bottom. -/
def deepNesting : List RawContentNode :=
  [ .node none none (some [ .node none none (some [ .node none none
      (some [ .node none none (some [ .node (some "text") (some "x") none,
        .node (some "text") (some "y") none ]) ]) ]) ]) ]

/-- Closed check for `C9_depth_first_flattening`: its `listGood` hypothesis
discharged on a depth-5 nesting. -/
theorem C9_depth_first_flattening_witness :
    extractStructuredNotes (some deepNesting) = joinSp (listLeaves deepNesting) ∧
    extractStructuredNotes (some deepNesting) = "x y" :=
  ⟨C9_depth_first_flattening.2.2 deepNesting (by decide),
   (C9_depth_first_flattening.2.2 deepNesting (by decide)).trans (by decide)⟩

/-! ## Action-item extraction (`extractActionItems` in
`src/collectors/granola-local.ts` and in the Notion granola collector) -/

/-- `pat` is a prefix of `l`, character by character. -/
def seqStarts : List Char → List Char → Bool
  | [], _ => true
  | _ :: _, [] => false
  | p :: ps, c :: cs => p == c && seqStarts ps cs

/-- `pat` occurs as a contiguous subsequence of `l` (JS `includes`). -/
def occursSeq (pat : List Char) : List Char → Bool
  | [] => seqStarts pat []
  | c :: rest => seqStarts pat (c :: rest) || occursSeq pat rest

/-- ASCII lowercase of a character list (JS `toLowerCase`). -/
def lcList (l : List Char) : List Char := l.map lcCh

/-- The local-cache collector's per-line test:
`trimmed.includes('[ ]') || trimmed.toLowerCase().startsWith('action:')
|| … startsWith('todo:') || … ('follow up:') || … ('next step:')`. -/
def actionLineTest (trimmed : List Char) : Bool :=
  occursSeq "[ ]".data trimmed ||
  seqStarts "action:".data (lcList trimmed) ||
  seqStarts "todo:".data (lcList trimmed) ||
  seqStarts "follow up:".data (lcList trimmed) ||
  seqStarts "next step:".data (lcList trimmed)

/-- The accumulating loop of the local-cache `extractActionItems`. -/
def extractActionItemsGo : List (List Char) → List String
  | [] => []
  | line :: rest =>
    let trimmed := jsTrimList line
    if actionLineTest trimmed then
      String.mk trimmed :: extractActionItemsGo rest
    else
      extractActionItemsGo rest

/-- `extractActionItems` from `src/collectors/granola-local.ts`. -/
def extractActionItems (content : String) : List String :=
  extractActionItemsGo (splitNl content.data)

/-- The Notion granola collector's per-line test: `line.includes('[ ]')`
or the raw line *contains* (not starts with) a lowercased label. -/
def notionActionLineTest (line : List Char) : Bool :=
  occursSeq "[ ]".data line ||
  occursSeq "action:".data (lcList line) ||
  occursSeq "todo:".data (lcList line) ||
  occursSeq "follow up:".data (lcList line) ||
  occursSeq "next step:".data (lcList line)

/-- The accumulating loop of the Notion collector's `extractActionItems`
(tests the raw line, pushes the trimmed line). -/
def extractActionItemsNotionGo : List (List Char) → List String
  | [] => []
  | line :: rest =>
    if notionActionLineTest line then
      String.mk (jsTrimList line) :: extractActionItemsNotionGo rest
    else
      extractActionItemsNotionGo rest

/-- `extractActionItems` from the Notion granola collector. -/
def extractActionItemsNotion (content : String) : List String :=
  extractActionItemsNotionGo (splitNl content.data)

/-- The claim's description: exactly the lines that, after trimming,
contain `"[ ]"` or start case-insensitively with one of the labels, kept
verbatim after trimming, in input line order. -/
def claimedActionItems (content : String) : List String :=
  (((splitNl content.data).map jsTrimList).filter actionLineTest).map String.mk

/-- The Notion variant as a declarative pipeline: keep a line when the raw
line passes the contains-based test, emit it trimmed. -/
def notionActionItemsPipeline (content : String) : List String :=
  (((splitNl content.data).filter notionActionLineTest).map jsTrimList).map
    String.mk

theorem extractActionItemsGo_eq_pipeline (lines : List (List Char)) :
    extractActionItemsGo lines =
      ((lines.map jsTrimList).filter actionLineTest).map String.mk := by
  induction lines with
  | nil => rfl
  | cons line rest ih =>
    rw [extractActionItemsGo]
    simp only [List.map_cons, List.filter_cons]
    by_cases h : actionLineTest (jsTrimList line)
    · simp [h, ih]
    · simp [h, ih]

theorem extractActionItemsNotionGo_eq_pipeline (lines : List (List Char)) :
    extractActionItemsNotionGo lines =
      ((lines.filter notionActionLineTest).map jsTrimList).map String.mk := by
  induction lines with
  | nil => rfl
  | cons line rest ih =>
    rw [extractActionItemsNotionGo]
    simp only [List.filter_cons]
    by_cases h : notionActionLineTest line
    · simp [h, ih]
    · simp [h, ih]

/-- C6 (amended): the *local-cache* extractor returns exactly the lines
that, after trimming, contain `"[ ]"` or start case-insensitively with one
of the labels, kept verbatim after trimming, in input line order — and the
worked example holds.  The *Notion-collector* variant differs: it keeps a
(trimmed) line whenever the raw line contains `"[ ]"` or contains one of
the labels anywhere, case-insensitively. -/
theorem C6_action_item_extraction :
    (∀ content, extractActionItems content = claimedActionItems content) ∧
    extractActionItems "- [ ] ship docs\nrandom line" = ["- [ ] ship docs"] ∧
    (∀ content,
      extractActionItemsNotion content = notionActionItemsPipeline content) := by
  refine ⟨fun content => ?_, by decide, fun content => ?_⟩
  · exact extractActionItemsGo_eq_pipeline (splitNl content.data)
  · exact extractActionItemsNotionGo_eq_pipeline (splitNl content.data)

/-- C6 counterexample: the Notion-collector extractor keeps a line whose
trimmed form does *not* start with a label (it merely contains one), so the
claim's "exactly the lines that … start case-insensitively with one of the
labels" is false of it. -/
theorem C6_notion_contains_counterexample :
    extractActionItemsNotion "- action: ship" = ["- action: ship"] ∧
    claimedActionItems "- action: ship" = [] := by
  refine ⟨by decide, by decide⟩

/-! ## Local Granola cache loading and the notes source selection
(`loadGranolaCache` / `getThisWeeksNotes` / `isGranolaCacheAvailable` in
`src/collectors/granola-local.ts`, and Step 3 of `synthesizeDraft` in
`src/synthesis/draft.ts`) -/

/-- The parsed shape of the cache consumed by `getThisWeeksNotes`.  The
per-document week filtering and field extraction are elided: they sit
inside a per-document `try/catch` and cannot affect which source is
consulted, so `documents` carries the notes that conversion yields. -/
structure RawCache where
  documents : Option (List GranolaNote)
deriving DecidableEq

/-- The observable states of the on-disk Granola cache file:
missing; present but unreadable or malformed (reading or `JSON.parse`
throws); or successfully parsed. -/
inductive GranolaCacheFile where
  | absent
  | corrupt
  | parsed (data : RawCache)
deriving DecidableEq

/-- `loadGranolaCache`: `null` when the file is missing, and — because the
read and both `JSON.parse` calls sit inside its `try/catch` — `null` (not a
thrown error) when the file is present but unreadable or malformed. -/
def loadGranolaCache : GranolaCacheFile → Option RawCache
  | .absent => none
  | .corrupt => none
  | .parsed data => some data

/-- `isGranolaCacheAvailable`: `existsSync` on the cache path, true for a
present file whether or not it parses. -/
def isGranolaCacheAvailable : GranolaCacheFile → Bool
  | .absent => false
  | .corrupt => true
  | .parsed _ => true

/-- `getThisWeeksNotes` from `src/collectors/granola-local.ts`, with its
result typed as the specification types it (`Except` an IO error): the
function returns `[]` when the cache yields `null` or has no `documents`,
and never produces the error case. -/
def getThisWeeksNotesLocal (file : GranolaCacheFile) :
    Except Unit (List GranolaNote) :=
  match loadGranolaCache file with
  | none => .ok []
  | some cache =>
    match cache.documents with
    | none => .ok []
    | some docs => .ok docs

/-- Step 3 of `synthesizeDraft` exactly as structured in
`src/synthesis/draft.ts`: local cache first when available, Notion on a
thrown local fetch (if configured), Notion alone when no cache file exists
(if configured), empty otherwise; every failure is caught. -/
def notesStepRaw (cacheAvailable : Bool)
    (localFetch : Except Unit (List GranolaNote)) (notionEnabled : Bool)
    (notionFetch : Except Unit (List GranolaNote)) : List GranolaNote :=
  if cacheAvailable then
    match localFetch with
    | .ok notes => notes
    | .error _ =>
      if notionEnabled then
        match notionFetch with
        | .ok notes => notes
        | .error _ => []
      else []
  else if notionEnabled then
    match notionFetch with
    | .ok notes => notes
    | .error _ => []
  else []

/-- Step 3 composed with the local collector's actual behaviour. -/
def granolaNotesStep (file : GranolaCacheFile) (notionEnabled : Bool)
    (notionFetch : Except Unit (List GranolaNote)) : List GranolaNote :=
  notesStepRaw (isGranolaCacheAvailable file) (getThisWeeksNotesLocal file)
    notionEnabled notionFetch

/-- What the local source actually contributes for a given file state. -/
def localCacheNotes (file : GranolaCacheFile) : List GranolaNote :=
  match getThisWeeksNotesLocal file with
  | .ok notes => notes
  | .error _ => []

/-- A fixed note used for concrete check inputs. -/
def sampleNote : GranolaNote :=
  { id := "doc1", title := "Design Review", date := 0, summary := none,
    content := "", attendees := [], actionItems := [], mentions := [] }

/-- C5 counterexample: with the cache file present but malformed, the
primary fetch *succeeds* with `[]` (the error is swallowed inside
`loadGranolaCache`), and the configured Notion fallback is *not* attempted
— the step returns `[]` even though Notion holds a note. -/
theorem C5_swallowed_cache_error_counterexample :
    (getThisWeeksNotesLocal GranolaCacheFile.corrupt).isOk = true ∧
    granolaNotesStep GranolaCacheFile.corrupt true
      (Except.ok [sampleNote]) = [] := by
  refine ⟨rfl, rfl⟩

/-- C5 (amended): the local notes fetch never fails — a present but
unreadable/malformed cache yields a successful empty result, not an
IOError — so the Notion fallback is consulted exactly when the cache file
is absent and Notion is configured; a corrupt cache contributes `[]` with
no fallback; and when the cache is absent and Notion is not configured the
notes list is empty. -/
theorem C5_notes_fallback (file : GranolaCacheFile) (notionEnabled : Bool)
    (notionFetch : Except Unit (List GranolaNote)) :
    (getThisWeeksNotesLocal file).isOk = true ∧
    granolaNotesStep file notionEnabled notionFetch =
      (if file = GranolaCacheFile.absent ∧ notionEnabled = true then
        (match notionFetch with
         | .ok notes => notes
         | .error _ => [])
       else localCacheNotes file) ∧
    (file = GranolaCacheFile.absent → notionEnabled = false →
      granolaNotesStep file notionEnabled notionFetch = []) ∧
    localCacheNotes GranolaCacheFile.corrupt = [] := by
  refine ⟨?_, ?_, ?_, rfl⟩
  · cases file with
    | absent => rfl
    | corrupt => rfl
    | parsed data =>
      obtain ⟨docs⟩ := data
      cases docs <;> rfl
  · cases file with
    | absent =>
      cases notionEnabled with
      | true => simp [granolaNotesStep, notesStepRaw, isGranolaCacheAvailable]
      | false => simp [granolaNotesStep, notesStepRaw, isGranolaCacheAvailable,
          localCacheNotes, getThisWeeksNotesLocal, loadGranolaCache]
    | corrupt =>
      have : ¬ (GranolaCacheFile.corrupt = GranolaCacheFile.absent ∧
          notionEnabled = true) := fun h => by cases h.1
      rw [if_neg this]
      rfl
    | parsed data =>
      have : ¬ (GranolaCacheFile.parsed data = GranolaCacheFile.absent ∧
          notionEnabled = true) := fun h => by cases h.1
      rw [if_neg this]
      cases hd : data.documents <;>
        simp [granolaNotesStep, notesStepRaw, isGranolaCacheAvailable,
          localCacheNotes, getThisWeeksNotesLocal, loadGranolaCache, hd]
  · intro h1 h2
    subst h1; subst h2
    rfl

/-- Closed check for `C5_notes_fallback`: its implications discharged with
the cache absent and Notion unconfigured. -/
theorem C5_notes_fallback_witness :
    granolaNotesStep GranolaCacheFile.absent false
      (Except.ok [sampleNote]) = [] :=
  (C5_notes_fallback GranolaCacheFile.absent false
    (Except.ok [sampleNote])).2.2.1 rfl rfl

/-! ## Aggregation orchestrator (`synthesizeDraft` in
`src/synthesis/draft.ts`)

Each of the five fetches is represented by its outcome (an `Except`); the
date-fns formatters and the generation call are environment parameters
(they belong to external collaborators). -/

/-- `SlackMessage` from `src/collectors/slack.ts`. -/
structure SlackMessage where
  text : String
  timestamp : Int
  threadTs : Option String
  isThreadReply : Bool
deriving DecidableEq

/-- `SlackChannelActivity` from `src/collectors/slack.ts`. -/
structure SlackChannelActivity where
  channelId : String
  channelName : String
  messageCount : Nat
  messages : List SlackMessage
  mentions : List String
deriving DecidableEq

/-- `Previous515` from `src/collectors/previous515.ts`. -/
structure Previous515 where
  date : String
  priorities : List String
  fullContent : String
deriving DecidableEq

/-- `formatMatchedMeeting` from `src/synthesis/matcher.ts`; the two
date-fns format calls (`'EEEE, MMM d'`, `'h:mm a'`) are passed in. -/
def formatMatchedMeeting (fmtDayDate fmtTime : Int → String)
    (meeting : MatchedMeeting) : String :=
  let event := meeting.event
  let lines1 := ["## " ++ event.title,
    "Date: " ++ fmtDayDate event.start ++ " at " ++ fmtTime event.start]
  let lines2 := lines1 ++
    (if event.attendees.length > 0 then
      ["Attendees: " ++ joinWith ", " (event.attendees.take 5) ++
        (if event.attendees.length > 5 then
          " (+" ++ toString (event.attendees.length - 5) ++ " more)"
         else "")]
     else [])
  let lines3 := lines2 ++
    (match meeting.note with
     | some note =>
       (if note.summary.getD "" ≠ "" then
          ["\nSummary: " ++ note.summary.getD ""]
        else []) ++
       ["\nNotes:\n" ++ String.mk (note.content.data.take 1500) ++
         (if note.content.data.length > 1500 then "..." else "")] ++
       (if note.actionItems.length > 0 then
          "\nAction Items:" ::
            (note.actionItems.take 5).map (fun item => "  - " ++ item)
        else [])
     | none => ["\n⚠️ No Granola notes found for this meeting"])
  joinNl lines3

/-- The run-level inputs of `synthesizeDraft`: configuration, the fixed
date strings, the date-fns formatters, the outcome of each collaborator
fetch, and the generation call. -/
structure SynthesisEnv where
  yourName : String
  today : String
  weekDisplay : String
  fmtDayDate : Int → String
  fmtTime : Int → String
  calendarFetch : Except Unit (List CalendarEvent)
  slackEnabled : Bool
  slackFetch : Except Unit (List SlackChannelActivity)
  cacheAvailable : Bool
  localNotesFetch : Except Unit (List GranolaNote)
  notionEnabled : Bool
  notionNotesFetch : Except Unit (List GranolaNote)
  previousFetch : Except Unit (Option Previous515)
  generate : String → String → Except Unit String

/-- Step 1: calendar events, recurring events dropped, then only
`accepted`/`unknown` responses kept; a thrown fetch degrades to `[]`. -/
def calendarStep (env : SynthesisEnv) : List CalendarEvent :=
  match env.calendarFetch with
  | .ok allEvents =>
    (allEvents.filter (fun e => !e.isRecurring)).filter
      (fun e => decide (e.myResponseStatus = .accepted) ||
        decide (e.myResponseStatus = .unknown))
  | .error _ => []

/-- Step 2: Slack activity, only when configured; a thrown fetch degrades
to `[]`. -/
def slackStep (env : SynthesisEnv) : List SlackChannelActivity :=
  if env.slackEnabled then
    match env.slackFetch with
    | .ok activity => activity
    | .error _ => []
  else []

/-- Step 3: the notes source selection (shared with `granolaNotesStep`). -/
def notesStepEnv (env : SynthesisEnv) : List GranolaNote :=
  notesStepRaw env.cacheAvailable env.localNotesFetch env.notionEnabled
    env.notionNotesFetch

/-- Step 4: the previous 5:15, only when Notion is configured; a thrown
fetch degrades to `none`. -/
def previousStep (env : SynthesisEnv) : Option Previous515 :=
  if env.notionEnabled then
    match env.previousFetch with
    | .ok prev => prev
    | .error _ => none
  else none

/-- Step 5: correlation runs regardless of how many sources succeeded. -/
def matchedMeetingsOf (env : SynthesisEnv) : List MatchedMeeting :=
  matchNotesToEvents env.yourName (calendarStep env) (notesStepEnv env)

/-- The formatted meetings context. -/
def meetingsContextOf (env : SynthesisEnv) : String :=
  joinWith "\n\n---\n\n"
    ((matchedMeetingsOf env).map
      (formatMatchedMeeting env.fmtDayDate env.fmtTime))

/-- The formatted Slack context. -/
def slackContextOf (env : SynthesisEnv) : String :=
  let acts := slackStep env
  if acts.length > 0 then
    joinWith "\n\n" (acts.map (fun ch =>
      "#" ++ ch.channelName ++ ": " ++ toString ch.messageCount ++
        " messages\n" ++
        joinNl ((ch.messages.take 3).map (fun m =>
          "  - \"" ++ String.mk (m.text.data.take 100) ++ "...\""))))
  else "No significant Slack activity this week"

/-- The formatted previous-week context. -/
def previousContextOf (env : SynthesisEnv) : String :=
  match previousStep env with
  | some prev =>
    "Last week\x27s priorities:\n" ++
      joinNl (prev.priorities.map (fun p => "- " ++ p))
  | none => "No previous 5:15 found"

/-- The system prompt template (values interpolated: author name, today,
week label). -/
def systemPromptOf (env : SynthesisEnv) : String :=
  "You are an AI assistant helping " ++ env.yourName ++
  " draft their weekly 5:15 status update.\n\nToday is " ++ env.today ++
  ". You\x27re drafting the 5:15 for the week of " ++ env.weekDisplay ++
  ".\n\n## CRITICAL RULES\n" ++
  "- ONLY use information explicitly provided in the meeting notes below\n" ++
  "- DO NOT invent, assume, or hallucinate any details not in the notes\n" ++
  "- DO NOT make up what was discussed if it\x27s not in the notes\n" ++
  "- If a meeting has notes, summarize ONLY what the notes say\n" ++
  "- Skip meetings that don\x27t have notes entirely\n\n" ++
  "## 5:15 Format\n\n" ++
  "Your response should be a complete 5:15 in this exact format:\n\n## " ++
  env.today ++ "\n\n### :tldr: TLDR\n" ++
  "[2-3 sentences summarizing the week based ONLY on the provided notes]\n\n" ++
  "### ✅ What I did\n- [One bullet per meeting that has notes]\n" ++
  "- [Summarize what the notes actually say - don\x27t invent details]\n" ++
  "- [Use @FirstName LastName for people mentioned IN the notes]\n" ++
  "- [Skip meetings without notes]\n\n### 🧠 What I am thinking about\n" ++
  "<!-- " ++ env.yourName ++ " will write this section -->\n\n" ++
  "### 🏗️ What I am prioritizing next week\n" ++
  "- [Extract action items and follow-ups ONLY from the provided notes]\n\n" ++
  "## Style Guidelines\n- Be concise and factual\n" ++
  "- Only state what\x27s in the notes - nothing more\n" ++
  "- Don\x27t embellish or add context not in the source data"

/-- The user prompt. -/
def promptOf (env : SynthesisEnv) : String :=
  "Please draft my 5:15 for this week based on the following data:\n\n" ++
  "## Calendar Events & Meeting Notes\n" ++
  (if meetingsContextOf env = "" then "No calendar events found"
   else meetingsContextOf env) ++
  "\n\n## Slack Activity\n" ++ slackContextOf env ++
  "\n\n## Previous Week Context\n" ++ previousContextOf env ++
  "\n\nGenerate the 5:15 now."

/-- `synthesizeDraft` from `src/synthesis/draft.ts`: the five wrapped
fetches, correlation, the single unwrapped generation call, and the parse
of its reply.  Only the generation call can fail. -/
def synthesizeDraft (env : SynthesisEnv) : Except Unit Draft515 :=
  match env.generate (systemPromptOf env) (promptOf env) with
  | .ok text =>
    .ok (parseDraftResponse text env.today (matchedMeetingsOf env))
  | .error e => .error e

/-- C8: every data-source failure is swallowed — that source contributes an
empty/`none` value and the run continues into correlation and generation —
and the overall result fails exactly when the single generation call
fails. -/
theorem C8_failure_is_swallowed_except_generation (env : SynthesisEnv) :
    synthesizeDraft env =
      (env.generate (systemPromptOf env) (promptOf env)).map
        (fun text =>
          parseDraftResponse text env.today (matchedMeetingsOf env)) ∧
    (∀ e, env.calendarFetch = .error e → calendarStep env = []) ∧
    (∀ e, env.slackFetch = .error e → slackStep env = []) ∧
    (∀ e e', env.localNotesFetch = .error e →
      env.notionNotesFetch = .error e' → notesStepEnv env = []) ∧
    (∀ e, env.previousFetch = .error e → previousStep env = none) ∧
    (∀ e, env.generate (systemPromptOf env) (promptOf env) = .error e →
      synthesizeDraft env = .error e) := by
  refine ⟨?_, fun e he => ?_, fun e he => ?_, fun e e' he he' => ?_,
    fun e he => ?_, fun e he => ?_⟩
  · unfold synthesizeDraft
    cases env.generate (systemPromptOf env) (promptOf env) <;> rfl
  · unfold calendarStep; rw [he]
  · unfold slackStep; rw [he]
    cases env.slackEnabled <;> rfl
  · unfold notesStepEnv notesStepRaw; rw [he, he']
    cases env.cacheAvailable <;> cases env.notionEnabled <;> rfl
  · unfold previousStep; rw [he]
    cases env.notionEnabled <;> rfl
  · unfold synthesizeDraft; rw [he]

/-- A run in which every collaborator fetch fails but generation
succeeds. -/
def allSourcesFailEnv : SynthesisEnv :=
  { yourName := "Zack", today := "January 9, 2026",
    weekDisplay := "Jan 5 - Jan 9, 2026",
    fmtDayDate := fun _ => "Friday, Jan 9", fmtTime := fun _ => "9:00 AM",
    calendarFetch := .error (), slackEnabled := true,
    slackFetch := .error (), cacheAvailable := true,
    localNotesFetch := .error (), notionEnabled := true,
    notionNotesFetch := .error (), previousFetch := .error (),
    generate := fun _ _ => .ok "### TLDR\nok" }

/-- The same run with a failing generation call. -/
def generationFailEnv : SynthesisEnv :=
  { allSourcesFailEnv with generate := fun _ _ => .error () }

/-- Closed check for `C8_failure_is_swallowed_except_generation`: all five
source-failure implications and the generation-failure implication
discharged on concrete runs. -/
theorem C8_failure_is_swallowed_witness :
    calendarStep allSourcesFailEnv = [] ∧
    slackStep allSourcesFailEnv = [] ∧
    notesStepEnv allSourcesFailEnv = [] ∧
    previousStep allSourcesFailEnv = none ∧
    synthesizeDraft generationFailEnv = .error () :=
  ⟨(C8_failure_is_swallowed_except_generation allSourcesFailEnv).2.1 () rfl,
   (C8_failure_is_swallowed_except_generation allSourcesFailEnv).2.2.1 () rfl,
   (C8_failure_is_swallowed_except_generation allSourcesFailEnv).2.2.2.1
     () () rfl rfl,
   (C8_failure_is_swallowed_except_generation allSourcesFailEnv).2.2.2.2.1
     () rfl,
   (C8_failure_is_swallowed_except_generation generationFailEnv).2.2.2.2.2
     () rfl⟩

/-! ## Markdown rendering (`formatDraftAsMarkdown` in
`src/output/markdown.ts`) and the parser round trip -/

/-- The line list built by `formatDraftAsMarkdown`. -/
def mdLines (draft : Draft515) : List String :=
  ["# " ++ draft.date, "", "## :tldr: TLDR", "", draft.tldr, "",
   "## ✅ What I did", ""] ++
  draft.whatIDid.map (fun item => "- " ++ item) ++
  (if draft.meetingsWithoutNotes.length > 0 then
    "" :: "> ⚠️ **Meetings without Granola notes - please fill in:**" ::
      draft.meetingsWithoutNotes.map
        (fun meeting => "> - " ++ meeting ++ " - [Add details]")
   else []) ++
  ["", "## 🧠 What I am thinking about", "", "<!-- Your reflections here -->",
   "", "## 🏗️ What I am prioritizing next week", ""] ++
  draft.priorities.map (fun priority => "- " ++ priority) ++ [""]

/-- `formatDraftAsMarkdown` from `src/output/markdown.ts`:
`lines.join('\n')`. -/
def formatDraftAsMarkdown (draft : Draft515) : String :=
  joinNl (mdLines draft)

/-- A well-formed report whose rendering exposes the round-trip failure. -/
def roundtripDraft : Draft515 :=
  { date := "January 9, 2026", tldr := "Quiet week.",
    whatIDid := ["Shipped X"],
    whatIAmThinkingAbout := "<!-- Your reflections here -->",
    priorities := ["Ship Z"], meetingsWithoutNotes := [] }

/-- C7 counterexample: the renderer emits `##` section headers while the
parser's captures stop only at `###`, so the re-parsed "What I did" capture
runs to the end of the text and picks up the priorities bullets as well —
the bullet lists do not round-trip. -/
theorem C7_roundtrip_counterexample :
    (parseDraftResponse (formatDraftAsMarkdown roundtripDraft) "D" []).whatIDid
      = ["Shipped X", "Ship Z"] ∧
    (parseDraftResponse (formatDraftAsMarkdown roundtripDraft) "D" []).whatIDid
      ≠ roundtripDraft.whatIDid := by
  refine ⟨by decide, by decide⟩

/-! ### Regex-scan lemmas for the round trip -/

theorem lcMatches_self_append (p r : List Char) :
    lcMatches p (p ++ r) = true := by
  induction p with
  | nil => rfl
  | cons c p ih =>
    show (lcEqCh c c && lcMatches p (p ++ r)) = true
    rw [ih]
    simp [lcEqCh]

/-- A header with no newline-class character cannot match across a
newline. -/
theorem lcMatches_stopNl (hdr : List Char)
    (hh : hdr.all (fun c => lcCh c ≠ '\n') = true) :
    ∀ (u v : List Char), lcMatches hdr (u ++ '\n' :: v) = true →
      lcMatches hdr u = true := by
  induction hdr with
  | nil => intro u v _; rfl
  | cons h hs ih =>
    intro u v hm
    simp only [List.all_cons, Bool.and_eq_true, decide_eq_true_eq] at hh
    cases u with
    | nil =>
      exfalso
      have h2 : lcMatches (h :: hs) ('\n' :: v) = true := hm
      simp only [lcMatches, Bool.and_eq_true] at h2
      have h3 : lcCh h = lcCh '\n' := by
        have := h2.1
        simp only [lcEqCh, beq_iff_eq] at this
        exact this
      exact hh.1 (h3.trans (by decide))
    | cons a as =>
      have hm' : lcMatches (h :: hs) (a :: (as ++ '\n' :: v)) = true := hm
      simp only [lcMatches, Bool.and_eq_true] at hm'
      simp only [lcMatches, Bool.and_eq_true]
      exact ⟨hm'.1, ih hh.2 as v hm'.2⟩

theorem findCapture_skip_line (hdr : List Char)
    (hh : hdr.all (fun c => lcCh c ≠ '\n') = true) :
    ∀ (line rest : List Char), occursCI hdr line = false →
      findCapture hdr (line ++ '\n' :: rest) = findCapture hdr rest := by
  intro line
  induction line with
  | nil =>
    intro rest hline
    cases hdr with
    | nil => simp [occursCI, lcMatches] at hline
    | cons h hs =>
      simp only [List.all_cons, Bool.and_eq_true, decide_eq_true_eq] at hh
      have hne : lcEqCh h '\n' = false := by
        simp only [lcEqCh, beq_eq_false_iff_ne]
        intro hcontra
        exact hh.1 (hcontra.trans (by decide))
      show findCapture (h :: hs) ('\n' :: rest) = findCapture (h :: hs) rest
      have hmf : lcMatches (h :: hs) ('\n' :: rest) = false := by
        show (lcEqCh h '\n' && lcMatches hs rest) = false
        rw [hne, Bool.false_and]
      simp [findCapture, matchAt, hmf]
  | cons c line ih =>
    intro rest hline
    rw [occursCI, Bool.or_eq_false_iff] at hline
    have hmf : lcMatches hdr ((c :: line) ++ '\n' :: rest) = false := by
      cases hq : lcMatches hdr ((c :: line) ++ '\n' :: rest) with
      | false => rfl
      | true =>
        have := lcMatches_stopNl hdr hh (c :: line) rest hq
        rw [this] at hline
        exact absurd hline.1 (by simp)
    show findCapture hdr (c :: (line ++ '\n' :: rest)) = findCapture hdr rest
    have hma : matchAt hdr (c :: (line ++ '\n' :: rest)) = none := by
      rw [matchAt]
      rw [show c :: (line ++ '\n' :: rest) = (c :: line) ++ '\n' :: rest from rfl,
        hmf]
      rfl
    rw [findCapture, hma]
    exact ih rest hline.2

theorem findCapture_cons_ne (h : Char) (hs : List Char) (c : Char)
    (rest : List Char) (hne : lcEqCh h c = false) :
    findCapture (h :: hs) (c :: rest) = findCapture (h :: hs) rest := by
  have hmf : lcMatches (h :: hs) (c :: rest) = false := by
    show (lcEqCh h c && lcMatches hs rest) = false
    rw [hne, Bool.false_and]
  rw [findCapture]
  rw [show matchAt (h :: hs) (c :: rest) = none from by rw [matchAt, hmf]; rfl]

/-- At the real header followed by a newline, the scan succeeds and the
capture is everything after the whitespace run, cut at the first `###`. -/
theorem findCapture_at_header (hdr t : List Char) :
    findCapture hdr (hdr ++ '\n' :: t) =
      some (captureUntil (afterLastNl ('\n' :: t.takeWhile jsWsChar) ++
        t.dropWhile jsWsChar)) := by
  have hself : lcMatches hdr (hdr ++ '\n' :: t) = true :=
    lcMatches_self_append hdr ('\n' :: t)
  have h1 : ('\n' :: t).takeWhile jsWsChar = '\n' :: t.takeWhile jsWsChar := by
    rw [List.takeWhile_cons]
    simp [jsWsChar]
  have h2 : ('\n' :: t).dropWhile jsWsChar = t.dropWhile jsWsChar := by
    rw [List.dropWhile_cons]
    simp [jsWsChar]
  have key : matchAt hdr (hdr ++ '\n' :: t) =
      some (captureUntil (afterLastNl ('\n' :: t.takeWhile jsWsChar) ++
        t.dropWhile jsWsChar)) := by
    rw [matchAt]
    simp only [hself, if_true]
    have hdrop : (hdr ++ '\n' :: t).drop hdr.length = '\n' :: t :=
      List.drop_left _ _
    rw [hdrop, h1, h2]
    rw [if_pos (List.mem_cons_self '\n' _)]
  cases hl : hdr ++ '\n' :: t with
  | nil =>
    exact absurd hl (List.append_ne_nil_of_right_ne_nil _ (by simp))
  | cons c rest =>
    rw [findCapture, ← hl, key]

/-- `###` occurs somewhere in the text. -/
def occursHash3 : List Char → Bool
  | [] => false
  | c :: rest => hash3 (c :: rest) || occursHash3 rest

theorem captureUntil_of_no_hash3 (l : List Char)
    (h : occursHash3 l = false) : captureUntil l = l := by
  induction l with
  | nil => rfl
  | cons c rest ih =>
    rw [occursHash3, Bool.or_eq_false_iff] at h
    rw [captureUntil, if_neg (by rw [h.1]; simp), ih h.2]

theorem occursHash3_append_nl (a rest : List Char)
    (ha : occursHash3 a = false) (hrest : occursHash3 rest = false) :
    occursHash3 (a ++ '\n' :: rest) = false := by
  induction a with
  | nil =>
    show occursHash3 ('\n' :: rest) = false
    rw [occursHash3, Bool.or_eq_false_iff]
    refine ⟨?_, hrest⟩
    cases rest with
    | nil => rfl
    | cons d rest' =>
      cases rest' with
      | nil => rfl
      | cons e rest'' => simp [hash3]
  | cons c a' ih =>
    rw [occursHash3, Bool.or_eq_false_iff] at ha
    show occursHash3 (c :: (a' ++ '\n' :: rest)) = false
    rw [occursHash3, Bool.or_eq_false_iff]
    refine ⟨?_, ih ha.2⟩
    cases a' with
    | nil =>
      cases rest with
      | nil => rfl
      | cons e r => simp [hash3]
    | cons d a'' =>
      cases a'' with
      | nil => simp [hash3]
      | cons e a''' =>
        have : hash3 (c :: d :: e :: a''') = false := ha.1
        simpa [hash3] using this

/-- No line contains a newline. -/
def linesNoNl (lines : List String) : Prop :=
  ∀ l ∈ lines, l.data.all (fun c => c ≠ '\n') = true

theorem joinNl_cons (l : String) (ls : List String) (h : ls ≠ []) :
    joinNl (l :: ls) = l ++ "\n" ++ joinNl ls := by
  cases ls with
  | nil => exact absurd rfl h
  | cons l2 ls2 => rfl

theorem joinNl_cons_data (l : String) (ls : List String) (h : ls ≠ []) :
    (joinNl (l :: ls)).data = l.data ++ '\n' :: (joinNl ls).data := by
  rw [joinNl_cons l ls h]
  rw [String.data_append, String.data_append]
  rw [List.append_assoc]
  rfl

theorem occursHash3_joinNl (lines : List String)
    (h : ∀ l ∈ lines, occursHash3 l.data = false) :
    occursHash3 (joinNl lines).data = false := by
  induction lines with
  | nil => rfl
  | cons l ls ih =>
    cases hls : ls with
    | nil => exact h l (List.mem_cons_self _ _)
    | cons l2 ls2 =>
      rw [← hls, joinNl_cons_data l ls (by rw [hls]; simp)]
      refine occursHash3_append_nl _ _ (h l (List.mem_cons_self _ _)) ?_
      exact ih (fun x hx => h x (List.mem_cons_of_mem _ hx))

theorem splitNl_of_no_nl (l : List Char) (h : l.all (fun c => c ≠ '\n') = true) :
    splitNl l = [l] := by
  induction l with
  | nil => rfl
  | cons c rest ih =>
    simp only [List.all_cons, Bool.and_eq_true, decide_eq_true_eq] at h
    rw [splitNl, if_neg h.1, ih (by simpa using h.2)]

theorem splitNl_append_nl (a r : List Char)
    (h : a.all (fun c => c ≠ '\n') = true) :
    splitNl (a ++ '\n' :: r) = a :: splitNl r := by
  induction a with
  | nil =>
    show splitNl ('\n' :: r) = [] :: splitNl r
    rw [splitNl, if_pos rfl]
  | cons c a' ih =>
    simp only [List.all_cons, Bool.and_eq_true, decide_eq_true_eq] at h
    show splitNl (c :: (a' ++ '\n' :: r)) = (c :: a') :: splitNl r
    rw [splitNl, if_neg h.1, ih (by simpa using h.2)]

theorem splitNl_joinNl (lines : List String) (hne : lines ≠ [])
    (h : linesNoNl lines) :
    splitNl (joinNl lines).data = lines.map String.data := by
  induction lines with
  | nil => exact absurd rfl hne
  | cons l ls ih =>
    cases hls : ls with
    | nil =>
      show splitNl (joinNl [l]).data = [l.data]
      exact splitNl_of_no_nl l.data (h l (List.mem_cons_self _ _))
    | cons l2 ls2 =>
      rw [← hls, joinNl_cons_data l ls (by rw [hls]; simp)]
      rw [splitNl_append_nl _ _ (h l (List.mem_cons_self _ _))]
      rw [ih (by rw [hls]; simp) (fun x hx => h x (List.mem_cons_of_mem _ hx))]
      rfl

theorem joinNl_append_data (ls ms : List String) (hms : ms ≠ []) :
    (joinNl (ls ++ ms)).data =
      ls.foldr (fun l acc => l.data ++ '\n' :: acc) (joinNl ms).data := by
  induction ls with
  | nil => rfl
  | cons l ls ih =>
    rw [List.cons_append,
      joinNl_cons_data l (ls ++ ms)
        (fun hc => hms (List.append_eq_nil.mp hc).2),
      ih, List.foldr_cons]

theorem findCapture_skip_many (hdr : List Char)
    (hh : hdr.all (fun c => lcCh c ≠ '\n') = true)
    (ls : List String) (rest : List Char)
    (h : ∀ l ∈ ls, occursCI hdr l.data = false) :
    findCapture hdr (ls.foldr (fun l acc => l.data ++ '\n' :: acc) rest) =
      findCapture hdr rest := by
  induction ls with
  | nil => rfl
  | cons l ls ih =>
    rw [List.foldr_cons,
      findCapture_skip_line hdr hh l.data _ (h l (List.mem_cons_self _ _))]
    exact ih (fun x hx => h x (List.mem_cons_of_mem _ hx))

/-- The first character (if any) is not whitespace. -/
def headNonWsB : List Char → Bool
  | [] => true
  | c :: _ => !jsWsChar c

theorem takeWhile_replicate_nl (k : Nat) (u : List Char)
    (hu : headNonWsB u = true) :
    (List.replicate k '\n' ++ u).takeWhile jsWsChar = List.replicate k '\n' := by
  induction k with
  | zero =>
    cases u with
    | nil => rfl
    | cons c u' =>
      have : jsWsChar c = false := by simpa [headNonWsB] using hu
      simp [List.takeWhile_cons, this]
  | succ k ih =>
    rw [List.replicate_succ, List.cons_append, List.takeWhile_cons]
    rw [if_pos (by decide)]
    rw [ih]

theorem dropWhile_replicate_nl (k : Nat) (u : List Char)
    (hu : headNonWsB u = true) :
    (List.replicate k '\n' ++ u).dropWhile jsWsChar = u := by
  induction k with
  | zero =>
    cases u with
    | nil => rfl
    | cons c u' =>
      have : jsWsChar c = false := by simpa [headNonWsB] using hu
      simp [List.dropWhile_cons, this]
  | succ k ih =>
    rw [List.replicate_succ, List.cons_append, List.dropWhile_cons]
    rw [if_pos (by decide)]
    exact ih

theorem afterLastNl_replicate (k : Nat) :
    afterLastNl (List.replicate (k + 1) '\n') = [] := by
  unfold afterLastNl
  rw [List.reverse_replicate]
  rw [List.replicate_succ, List.takeWhile_cons]
  rw [if_neg (by decide)]
  rfl

/-- The capture region after the header's newline run: leading newlines are
consumed, the capture starts at the first non-blank line. -/
theorem nlrun_capture (k : Nat) (u : List Char) (hu : headNonWsB u = true) :
    afterLastNl ('\n' :: (List.replicate k '\n' ++ u).takeWhile jsWsChar) ++
      (List.replicate k '\n' ++ u).dropWhile jsWsChar = u := by
  rw [takeWhile_replicate_nl k u hu, dropWhile_replicate_nl k u hu]
  rw [show ('\n' :: List.replicate k '\n') = List.replicate (k + 1) '\n' from
    (List.replicate_succ '\n' k).symm]
  rw [afterLastNl_replicate k]
  rfl

/-- Trailing-whitespace trim. -/
def rtrim (l : List Char) : List Char := (l.reverse.dropWhile jsWsChar).reverse

theorem jsTrimList_cons_of_head (c : Char) (rest : List Char)
    (hc : jsWsChar c = false) :
    jsTrimList (c :: rest) = c :: rtrim rest := by
  unfold jsTrimList rtrim
  rw [List.dropWhile_cons, if_neg (by simp [hc])]
  rw [List.reverse_cons, List.dropWhile_append]
  by_cases he : ((rest.reverse).dropWhile jsWsChar).isEmpty
  · rw [if_pos he]
    rw [List.isEmpty_iff] at he
    rw [he]
    simp [List.dropWhile_cons, hc]
  · rw [if_neg he]
    simp

theorem rtrim_eq_self_of_last (l : List Char)
    (h : match l.getLast? with
         | some c => jsWsChar c = false
         | none => True) :
    rtrim l = l := by
  unfold rtrim
  cases hl : l.reverse with
  | nil =>
    have : l = [] := by simpa using congrArg List.reverse hl
    simp [this]
  | cons c r =>
    have hlast : l.getLast? = some c := by
      rw [← List.head?_reverse, hl]
      rfl
    rw [hlast] at h
    rw [List.dropWhile_cons, if_neg (by simp [h])]
    rw [← hl, List.reverse_reverse]

theorem jsTrimList_eq_self (l : List Char)
    (hhead : headNonWsB l = true)
    (hlast : match l.getLast? with
             | some c => jsWsChar c = false
             | none => True) :
    jsTrimList l = l := by
  cases l with
  | nil => rfl
  | cons c rest =>
    have hc : jsWsChar c = false := by simpa [headNonWsB] using hhead
    rw [jsTrimList_cons_of_head c rest hc]
    cases hr : rest.getLast? with
    | none =>
      have : rest = [] := by simpa using hr
      simp [this, rtrim]
    | some d =>
      have hlast' : jsWsChar d = false := by
        cases rest with
        | nil => simp at hr
        | cons x xs =>
          have hcc : (c :: x :: xs).getLast? = some d := by
            rw [List.getLast?_cons_cons]
            exact hr
          rw [hcc] at hlast
          exact hlast
      rw [rtrim_eq_self_of_last rest (by rw [hr]; exact hlast')]

/-! ### Well-formedness conditions for the round trip -/

/-- Neither section header occurs (case-insensitively) in the text. -/
def hdrFreeChars (l : List Char) : Bool :=
  !(occursCI "What I did".data l) && !(occursCI "prioritizing next week".data l)

/-- The first character exists and is not of the marker class `[\s\-•]`. -/
def headNonMarkerB : List Char → Bool
  | [] => false
  | c :: _ => !bulletMarkerChar c

/-- The last character exists and is not whitespace. -/
def lastNonWsB (l : List Char) : Bool :=
  match l.getLast? with
  | some c => !jsWsChar c
  | none => false

/-- A bullet item that survives rendering and re-parsing unchanged: it is
non-empty, single-line, its rendered line `- item` contains no `###` and no
section-header substring, it does not start with whitespace or a bullet
marker, and it does not end with whitespace. -/
def goodItem (s : String) : Bool :=
  s.data.all (fun c => c ≠ '\n') &&
  !(occursHash3 ("- " ++ s).data) &&
  hdrFreeChars ("- " ++ s).data &&
  headNonMarkerB s.data &&
  lastNonWsB s.data

/-- A meetings-without-notes title whose rendered quote line
`> - title - [Add details]` is single-line and free of `###` and of the
section-header substrings. -/
def goodMeeting (m : String) : Bool :=
  m.data.all (fun c => c ≠ '\n') &&
  !(occursHash3 ("> - " ++ m ++ " - [Add details]").data) &&
  hdrFreeChars ("> - " ++ m ++ " - [Add details]").data

/-- A single-line text free of the section-header substrings (for the date
and TLDR fields; for the date the condition is placed on the rendered
`# date` heading line). -/
def cleanLine (rendered : String) : Bool :=
  rendered.data.all (fun c => c ≠ '\n') && hdrFreeChars rendered.data

theorem isBulletLine_cons (c : Char) (rest : List Char)
    (hc : jsWsChar c = false) :
    isBulletLine (c :: rest) = (c = '-' || c = '•') := by
  unfold isBulletLine
  rw [jsTrimList_cons_of_head c rest hc]

theorem goodItem_line_data (s : String) :
    ("- " ++ s).data = '-' :: ' ' :: s.data := by
  rw [String.data_append]
  rfl

theorem goodMeeting_line_data (m : String) :
    ("> - " ++ m ++ " - [Add details]").data =
      '>' :: ' ' :: '-' :: ' ' :: (m.data ++ " - [Add details]".data) := by
  rw [String.data_append, String.data_append]
  rfl

theorem bullet_line_processing (s : String) (hg : goodItem s = true) :
    isBulletLine ("- " ++ s).data = true ∧
    stripBullet ("- " ++ s).data = s.data := by
  unfold goodItem at hg
  simp only [Bool.and_eq_true] at hg
  obtain ⟨⟨⟨⟨hnl, hh3⟩, hhf⟩, hhm⟩, hlw⟩ := hg
  rw [goodItem_line_data]
  constructor
  · rw [isBulletLine_cons '-' _ (by decide)]
    decide
  · unfold stripBullet
    rw [List.dropWhile_cons, if_pos (by decide), List.dropWhile_cons,
      if_pos (by decide)]
    cases hs : s.data with
    | nil => rw [hs] at hhm; exact absurd hhm (by decide)
    | cons c cs =>
      rw [hs] at hhm
      have hcm : bulletMarkerChar c = false := by
        simpa [headNonMarkerB] using hhm
      rw [List.dropWhile_cons, if_neg (by simp [hcm])]
      rw [← hs]
      refine jsTrimList_eq_self s.data ?_ ?_
      · rw [hs]
        have hws : jsWsChar c = false := by
          cases hq : jsWsChar c with
          | false => rfl
          | true => rw [bulletMarkerChar, hq] at hcm; simp at hcm
        show (!jsWsChar c) = true
        rw [hws]
        rfl
      · rw [hs]
        rw [hs] at hlw
        unfold lastNonWsB at hlw
        cases hl : (c :: cs).getLast? with
        | none => simp at hl
        | some d =>
          rw [hl] at hlw
          simpa using hlw

/-- The bullet-section pipeline applied to a list of (already split)
lines. -/
def keptBullets (lls : List (List Char)) : List String :=
  ((lls.filter isBulletLine).map (fun l => String.mk (stripBullet l))).filter
    (fun s => s ≠ "")

theorem parseBulletSection_eq_keptBullets (cap : List Char) :
    parseBulletSection cap = keptBullets (splitNl cap) := rfl

theorem keptBullets_append (a b : List (List Char)) :
    keptBullets (a ++ b) = keptBullets a ++ keptBullets b := by
  unfold keptBullets
  rw [List.filter_append, List.map_append, List.filter_append]

theorem keptBullets_of_none (lls : List (List Char))
    (h : ∀ l ∈ lls, isBulletLine l = false) : keptBullets lls = [] := by
  have h0 : lls.filter isBulletLine = [] :=
    List.filter_eq_nil_iff.mpr (fun l hl => by simp [h l hl])
  unfold keptBullets
  rw [h0]
  rfl

theorem keptBullets_items (items : List String)
    (h : ∀ s ∈ items, goodItem s = true) :
    keptBullets (items.map (fun s => ("- " ++ s).data)) = items := by
  induction items with
  | nil => rfl
  | cons s items ih =>
    have hs := bullet_line_processing s (h s (List.mem_cons_self _ _))
    have hne : String.mk (stripBullet ("- " ++ s).data) ≠ "" := by
      rw [hs.2]
      intro hc
      have hd : s.data = [] := congrArg String.data hc
      have hhm := h s (List.mem_cons_self _ _)
      unfold goodItem at hhm
      simp only [Bool.and_eq_true] at hhm
      rw [hd] at hhm
      exact absurd hhm.1.2 (by decide)
    have ih' := ih (fun x hx => h x (List.mem_cons_of_mem _ hx))
    show keptBullets (("- " ++ s).data ::
      items.map (fun s => ("- " ++ s).data)) = s :: items
    unfold keptBullets at ih' ⊢
    rw [List.filter_cons_of_pos hs.1, List.map_cons]
    rw [List.filter_cons, if_pos (decide_eq_true hne), hs.2]
    rw [show String.mk s.data = s from rfl]
    exact congrArg (s :: ·) ih'

theorem keptBullets_drop_empty (LS : List String) :
    keptBullets ((LS.dropWhile (fun l => l == "")).map String.data) =
      keptBullets (LS.map String.data) := by
  induction LS with
  | nil => rfl
  | cons l LS ih =>
    by_cases hl : l == ""
    · rw [List.dropWhile_cons, if_pos hl, ih]
      have hle : l = "" := by simpa using hl
      rw [List.map_cons, hle]
      show _ = keptBullets ([] :: LS.map String.data)
      unfold keptBullets
      rw [List.filter_cons_of_neg (by simp [isBulletLine, jsTrimList])]
    · rw [List.dropWhile_cons, if_neg hl]

theorem joinNl_drop_empty (LS : List String)
    (h : LS.dropWhile (fun l => l == "") ≠ []) :
    (joinNl LS).data =
      List.replicate ((LS.takeWhile (fun l => l == "")).length) '\n' ++
        (joinNl (LS.dropWhile (fun l => l == ""))).data := by
  induction LS with
  | nil => simp at h
  | cons l LS' ih =>
    by_cases hl : l == ""
    · have hLS' : LS'.dropWhile (fun l => l == "") ≠ [] := by
        rwa [List.dropWhile_cons, if_pos hl] at h
      have hne : LS' ≠ [] := fun hc => by
        rw [hc] at hLS'
        simp at hLS'
      rw [joinNl_cons_data l LS' hne]
      rw [List.takeWhile_cons, if_pos hl, List.dropWhile_cons, if_pos hl]
      rw [ih hLS']
      have hle : l = "" := by simpa using hl
      rw [hle]
      simp [List.replicate_succ]
    · rw [List.takeWhile_cons, if_neg hl, List.dropWhile_cons, if_neg hl]
      simp

theorem headNonWsB_append (a b : List Char) (ha : a ≠ [])
    (h : headNonWsB a = true) : headNonWsB (a ++ b) = true := by
  cases a with
  | nil => exact absurd rfl ha
  | cons c r => exact h

/-- The head of a non-trivial `dropWhile` result is in the list and fails
the predicate. -/
theorem dropWhile_eq_cons_facts {α : Type} (p : α → Bool) :
    ∀ (LS : List α) (l0 : α) (DL : List α),
      LS.dropWhile p = l0 :: DL → l0 ∈ LS ∧ p l0 = false := by
  intro LS
  induction LS with
  | nil => intro l0 DL hc; simp at hc
  | cons x xs ih =>
    intro l0 DL hc
    rw [List.dropWhile_cons] at hc
    by_cases hx : p x = true
    · rw [if_pos hx] at hc
      obtain ⟨hm, hp⟩ := ih l0 DL hc
      exact ⟨List.mem_cons_of_mem _ hm, hp⟩
    · rw [if_neg hx] at hc
      cases hc
      exact ⟨List.mem_cons_self _ _, by simpa using hx⟩

/-- The capture region for a header followed by a block of lines: leading
blank lines are consumed by the newline run; the capture is the join of the
remaining lines. -/
theorem capture_of_lines (LS : List String)
    (hDL : LS.dropWhile (fun l => l == "") ≠ [])
    (hhead : ∀ l ∈ LS, l ≠ "" → headNonWsB l.data = true) :
    afterLastNl ('\n' :: ((joinNl LS).data).takeWhile jsWsChar) ++
      ((joinNl LS).data).dropWhile jsWsChar =
      (joinNl (LS.dropWhile (fun l => l == ""))).data := by
  have hdecomp := joinNl_drop_empty LS hDL
  rw [hdecomp]
  apply nlrun_capture
  cases hDL' : LS.dropWhile (fun l => l == "") with
  | nil => exact absurd hDL' hDL
  | cons l0 DL' =>
    obtain ⟨hl0mem, hl0pred⟩ :=
      dropWhile_eq_cons_facts (fun l => l == "") LS l0 DL' hDL'
    have hl0ne : l0 ≠ "" := by simpa using hl0pred
    have hl0 : headNonWsB l0.data = true := hhead l0 hl0mem hl0ne
    have hl0d : l0.data ≠ [] := by
      intro hc
      apply hl0ne
      have hmk : l0 = String.mk l0.data := rfl
      rw [hmk, hc]
    cases hDL2 : DL' with
    | nil =>
      show headNonWsB (joinNl [l0]).data = true
      exact hl0
    | cons l1 DL'' =>
      rw [joinNl_cons_data l0 (l1 :: DL'') (by simp)]
      exact headNonWsB_append _ _ hl0d hl0

/-- Scanning over characters at which the header's first character fails to
match. -/
theorem findCapture_skip_chars (h : Char) (hs : List Char) :
    ∀ (pre rest : List Char),
      pre.all (fun c => lcEqCh h c = false) = true →
      findCapture (h :: hs) (pre ++ rest) = findCapture (h :: hs) rest
  | [], _, _ => rfl
  | c :: pre', rest, hpre => by
    simp only [List.all_cons, Bool.and_eq_true, decide_eq_true_eq] at hpre
    show findCapture (h :: hs) (c :: (pre' ++ rest)) = findCapture (h :: hs) rest
    rw [findCapture_cons_ne h hs c _ hpre.1]
    exact findCapture_skip_chars h hs pre' rest hpre.2

end FiveFifteen
-- Facts extracted from the well-formedness predicates of rendered lines.
namespace FiveFifteen

theorem cleanLine_facts (r : String) (h : cleanLine r = true) :
    r.data.all (fun c => c ≠ '\n') = true ∧
    occursCI "What I did".data r.data = false ∧
    occursCI "prioritizing next week".data r.data = false := by
  unfold cleanLine hdrFreeChars at h
  simp only [Bool.and_eq_true, Bool.not_eq_true'] at h
  exact ⟨h.1, h.2.1, h.2.2⟩

theorem goodItem_facts (s : String) (h : goodItem s = true) :
    s.data.all (fun c => c ≠ '\n') = true ∧
    occursHash3 ("- " ++ s).data = false ∧
    occursCI "What I did".data ("- " ++ s).data = false ∧
    occursCI "prioritizing next week".data ("- " ++ s).data = false ∧
    ("- " ++ s).data.all (fun c => c ≠ '\n') = true := by
  unfold goodItem hdrFreeChars at h
  simp only [Bool.and_eq_true, Bool.not_eq_true'] at h
  refine ⟨h.1.1.1.1, h.1.1.1.2, h.1.1.2.1, h.1.1.2.2, ?_⟩
  rw [goodItem_line_data]
  simp only [List.all_cons, Bool.and_eq_true]
  exact ⟨by decide, by decide, h.1.1.1.1⟩

theorem goodMeeting_facts (m : String) (h : goodMeeting m = true) :
    occursHash3 ("> - " ++ m ++ " - [Add details]").data = false ∧
    occursCI "What I did".data ("> - " ++ m ++ " - [Add details]").data = false ∧
    occursCI "prioritizing next week".data
      ("> - " ++ m ++ " - [Add details]").data = false ∧
    ("> - " ++ m ++ " - [Add details]").data.all (fun c => c ≠ '\n') = true := by
  unfold goodMeeting hdrFreeChars at h
  simp only [Bool.and_eq_true, Bool.not_eq_true'] at h
  refine ⟨h.1.2, h.2.1, h.2.2, ?_⟩
  rw [goodMeeting_line_data]
  simp only [List.all_cons, List.all_append, Bool.and_eq_true]
  exact ⟨by decide, by decide, by decide, by decide, h.1.1, by decide⟩

theorem isBulletLine_mwLine (m : String) :
    isBulletLine ("> - " ++ m ++ " - [Add details]").data = false := by
  rw [goodMeeting_line_data, isBulletLine_cons '>' _ (by decide)]
  decide

end FiveFifteen
namespace FiveFifteen

theorem headNonWsB_cons (c : Char) (r : List Char) :
    headNonWsB (c :: r) = !jsWsChar c := rfl

theorem mem_ite_nil (l : String) (c : Prop) [Decidable c] (A : List String)
    (hl : l ∈ (if c then A else [])) : l ∈ A := by
  by_cases hc : c
  · rwa [if_pos hc] at hl
  · rw [if_neg hc] at hl
    exact absurd hl (List.not_mem_nil l)

/-- The engine for one section scan on a rendered line layout: skip the
lines before the header line, skip the characters before the header inside
its line, match at the header, consume the blank-line run, and keep the
capture whole because no `###` occurs in it. -/
theorem findCapture_layout (h : Char) (hs : List Char)
    (hh : (h :: hs).all (fun c => lcCh c ≠ '\n') = true)
    (pre : List String) (hdrLine : String) (lead : List Char)
    (post : List String)
    (hsplit : hdrLine.data = lead ++ (h :: hs))
    (hlead : lead.all (fun c => lcEqCh h c = false) = true)
    (hpre : ∀ l ∈ pre, occursCI (h :: hs) l.data = false)
    (hpost : post ≠ [])
    (hDL : post.dropWhile (fun l => l == "") ≠ [])
    (hhead : ∀ l ∈ post, l ≠ "" → headNonWsB l.data = true)
    (hhash : ∀ l ∈ post.dropWhile (fun l => l == ""), occursHash3 l.data = false) :
    findCapture (h :: hs) (joinNl (pre ++ hdrLine :: post)).data =
      some ((joinNl (post.dropWhile (fun l => l == ""))).data) := by
  rw [joinNl_append_data pre (hdrLine :: post) (by simp)]
  rw [findCapture_skip_many (h :: hs) hh pre _ hpre]
  rw [joinNl_cons_data hdrLine post hpost]
  rw [hsplit, List.append_assoc]
  rw [findCapture_skip_chars h hs lead _ hlead]
  rw [findCapture_at_header (h :: hs) (joinNl post).data]
  rw [capture_of_lines post hDL hhead]
  rw [captureUntil_of_no_hash3 _ (occursHash3_joinNl _ hhash)]

/-- The same engine when the section body is just the two blank layout
lines (an empty bullet list at the end of the document): the capture is
empty. -/
theorem findCapture_layout_blank (h : Char) (hs : List Char)
    (hh : (h :: hs).all (fun c => lcCh c ≠ '\n') = true)
    (pre : List String) (hdrLine : String) (lead : List Char)
    (hsplit : hdrLine.data = lead ++ (h :: hs))
    (hlead : lead.all (fun c => lcEqCh h c = false) = true)
    (hpre : ∀ l ∈ pre, occursCI (h :: hs) l.data = false) :
    findCapture (h :: hs) (joinNl (pre ++ hdrLine :: ["", ""])).data =
      some [] := by
  rw [joinNl_append_data pre (hdrLine :: ["", ""]) (by simp)]
  rw [findCapture_skip_many (h :: hs) hh pre _ hpre]
  rw [joinNl_cons_data hdrLine ["", ""] (by simp)]
  rw [hsplit, List.append_assoc]
  rw [findCapture_skip_chars h hs lead _ hlead]
  rw [findCapture_at_header (h :: hs) (joinNl ["", ""]).data]
  rfl

/-- The meetings-without-notes block of `formatDraftAsMarkdown`. -/
def mwBlock (mw : List String) : List String :=
  if mw.length > 0 then
    "" :: "> ⚠️ **Meetings without Granola notes - please fill in:**" ::
      mw.map (fun meeting => "> - " ++ meeting ++ " - [Add details]")
  else []

/-- The rendered lines that follow the `## ✅ What I did` header line. -/
def bodyLines (wid mw pri : List String) : List String :=
  "" :: (wid.map (fun item => "- " ++ item) ++
    (mwBlock mw ++
      (["", "## 🧠 What I am thinking about", "",
        "<!-- Your reflections here -->", "",
        "## 🏗️ What I am prioritizing next week", ""] ++
        (pri.map (fun priority => "- " ++ priority) ++ [""]))))

/-- The rendered lines that follow the prioritizing header line. -/
def tailLines (pri : List String) : List String :=
  "" :: (pri.map (fun priority => "- " ++ priority) ++ [""])

/-- The rendered lines that precede the prioritizing header line. -/
def preLines3 (date tldr : String) (wid mw : List String) : List String :=
  ["# " ++ date, "", "## :tldr: TLDR", "", tldr, "",
    "## ✅ What I did", ""] ++
  (wid.map (fun item => "- " ++ item) ++
    (mwBlock mw ++
      ["", "## 🧠 What I am thinking about", "",
        "<!-- Your reflections here -->", ""]))

theorem keptBullets_empty_cons (X : List (List Char)) :
    keptBullets (("" : String).data :: X) = keptBullets X := by
  unfold keptBullets
  rw [List.filter_cons_of_neg (by decide)]

theorem keptBullets_blank :
    keptBullets (([""] : List String).map String.data) = [] := by decide

theorem keptBullets_mid7 :
    keptBullets (((["", "## 🧠 What I am thinking about", "",
      "<!-- Your reflections here -->", "",
      "## 🏗️ What I am prioritizing next week", ""]) : List String).map
        String.data) = [] := by decide

theorem keptBullets_mwBlock (mw : List String) :
    keptBullets ((mwBlock mw).map String.data) = [] := by
  unfold mwBlock
  by_cases hm : mw.length > 0
  · rw [if_pos hm]
    apply keptBullets_of_none
    intro l hl
    rw [List.map_cons, List.map_cons] at hl
    rcases List.mem_cons.mp hl with rfl | hl2
    · decide
    rcases List.mem_cons.mp hl2 with rfl | hl3
    · decide
    rw [List.map_map, List.mem_map] at hl3
    obtain ⟨m, hm2, rfl⟩ := hl3
    exact isBulletLine_mwLine m
  · rw [if_neg hm]
    rfl

theorem mwBlock_facts (mw : List String)
    (hmw : ∀ m ∈ mw, goodMeeting m = true) :
    ∀ l ∈ mwBlock mw,
      occursHash3 l.data = false ∧
      l.data.all (fun c => c ≠ '\n') = true ∧
      (l ≠ "" → headNonWsB l.data = true) := by
  intro l hl
  unfold mwBlock at hl
  have hl2 := mem_ite_nil l _ _ hl
  rcases List.mem_cons.mp hl2 with rfl | hl3
  · exact ⟨by decide, by decide, fun hc => absurd rfl hc⟩
  rcases List.mem_cons.mp hl3 with rfl | hl4
  · exact ⟨by decide, by decide, fun hc => by decide⟩
  rw [List.mem_map] at hl4
  obtain ⟨m, hm2, rfl⟩ := hl4
  have hf := goodMeeting_facts m (hmw m hm2)
  refine ⟨hf.1, hf.2.2.2, fun hc => ?_⟩
  rw [goodMeeting_line_data, headNonWsB_cons]
  decide

theorem mwBlock_noPri (mw : List String)
    (hmw : ∀ m ∈ mw, goodMeeting m = true) :
    ∀ l ∈ mwBlock mw,
      occursCI "prioritizing next week".data l.data = false := by
  intro l hl
  unfold mwBlock at hl
  have hl2 := mem_ite_nil l _ _ hl
  rcases List.mem_cons.mp hl2 with rfl | hl3
  · decide
  rcases List.mem_cons.mp hl3 with rfl | hl4
  · decide
  rw [List.mem_map] at hl4
  obtain ⟨m, hm2, rfl⟩ := hl4
  exact (goodMeeting_facts m (hmw m hm2)).2.2.1

theorem bodyLines_facts (wid mw pri : List String)
    (hwid : ∀ s ∈ wid, goodItem s = true)
    (hmw : ∀ m ∈ mw, goodMeeting m = true)
    (hpri : ∀ s ∈ pri, goodItem s = true) :
    ∀ l ∈ bodyLines wid mw pri,
      occursHash3 l.data = false ∧
      l.data.all (fun c => c ≠ '\n') = true ∧
      (l ≠ "" → headNonWsB l.data = true) := by
  unfold bodyLines
  refine List.forall_mem_cons.mpr
    ⟨⟨by decide, by decide, fun hc => absurd rfl hc⟩, ?_⟩
  refine List.forall_mem_append.mpr ⟨?_, List.forall_mem_append.mpr
    ⟨mwBlock_facts mw hmw, List.forall_mem_append.mpr
      ⟨by decide, List.forall_mem_append.mpr ⟨?_, by decide⟩⟩⟩⟩
  · intro l hl
    rw [List.mem_map] at hl
    obtain ⟨s, hsmem, rfl⟩ := hl
    have hf := goodItem_facts s (hwid s hsmem)
    refine ⟨hf.2.1, hf.2.2.2.2, fun hc => ?_⟩
    rw [goodItem_line_data, headNonWsB_cons]
    decide
  · intro l hl
    rw [List.mem_map] at hl
    obtain ⟨s, hsmem, rfl⟩ := hl
    have hf := goodItem_facts s (hpri s hsmem)
    refine ⟨hf.2.1, hf.2.2.2.2, fun hc => ?_⟩
    rw [goodItem_line_data, headNonWsB_cons]
    decide

theorem bodyLines_dropWhile_ne (wid mw pri : List String) :
    (bodyLines wid mw pri).dropWhile (fun l => l == "") ≠ [] := by
  intro hc
  have hmem : ("## 🧠 What I am thinking about" : String) ∈
      bodyLines wid mw pri := by
    unfold bodyLines
    exact List.mem_cons_of_mem _ (List.mem_append_right _
      (List.mem_append_right _ (List.mem_append_left _ (by decide))))
  exact absurd (List.dropWhile_eq_nil_iff.mp hc _ hmem) (by decide)

theorem keptBullets_bodyLines (wid mw pri : List String)
    (hwid : ∀ s ∈ wid, goodItem s = true)
    (hpri : ∀ s ∈ pri, goodItem s = true) :
    keptBullets ((bodyLines wid mw pri).map String.data) = wid ++ pri := by
  unfold bodyLines
  rw [List.map_cons, keptBullets_empty_cons]
  rw [List.map_append, keptBullets_append]
  rw [List.map_append, keptBullets_append]
  rw [List.map_append, keptBullets_append]
  rw [List.map_append, keptBullets_append]
  have hB : (wid.map (fun item => "- " ++ item)).map String.data =
      wid.map (fun s => ("- " ++ s).data) := by
    rw [List.map_map]
    rfl
  have hPm : (pri.map (fun priority => "- " ++ priority)).map String.data =
      pri.map (fun s => ("- " ++ s).data) := by
    rw [List.map_map]
    rfl
  rw [hB, keptBullets_items wid hwid, hPm, keptBullets_items pri hpri]
  rw [keptBullets_mwBlock, keptBullets_mid7, keptBullets_blank]
  simp

theorem tailLines_facts (pri : List String)
    (hpri : ∀ s ∈ pri, goodItem s = true) :
    ∀ l ∈ tailLines pri,
      occursHash3 l.data = false ∧
      l.data.all (fun c => c ≠ '\n') = true ∧
      (l ≠ "" → headNonWsB l.data = true) := by
  unfold tailLines
  refine List.forall_mem_cons.mpr
    ⟨⟨by decide, by decide, fun hc => absurd rfl hc⟩,
      List.forall_mem_append.mpr ⟨?_, by decide⟩⟩
  intro l hl
  rw [List.mem_map] at hl
  obtain ⟨s, hsmem, rfl⟩ := hl
  have hf := goodItem_facts s (hpri s hsmem)
  refine ⟨hf.2.1, hf.2.2.2.2, fun hc => ?_⟩
  rw [goodItem_line_data, headNonWsB_cons]
  decide

theorem tailLines_dropWhile_ne (p : String) (ps : List String) :
    (tailLines (p :: ps)).dropWhile (fun l => l == "") ≠ [] := by
  have hno : ¬((("- " ++ p : String) == "") = true) := by
    intro hc
    have hc2 : ("- " ++ p : String) = "" := eq_of_beq hc
    have hdd := congrArg String.data hc2
    rw [goodItem_line_data] at hdd
    exact absurd hdd (List.cons_ne_nil _ _)
  unfold tailLines
  rw [List.map_cons, List.cons_append, List.dropWhile_cons,
    if_pos (by decide), List.dropWhile_cons, if_neg hno]
  exact List.cons_ne_nil _ _

theorem keptBullets_tailLines (pri : List String)
    (hpri : ∀ s ∈ pri, goodItem s = true) :
    keptBullets ((tailLines pri).map String.data) = pri := by
  unfold tailLines
  rw [List.map_cons, keptBullets_empty_cons]
  rw [List.map_append, keptBullets_append]
  have hPm : (pri.map (fun priority => "- " ++ priority)).map String.data =
      pri.map (fun s => ("- " ++ s).data) := by
    rw [List.map_map]
    rfl
  rw [hPm, keptBullets_items pri hpri, keptBullets_blank]
  simp

theorem preW_scan_facts (date tldr : String)
    (hdate : cleanLine ("# " ++ date) = true)
    (htldr : cleanLine tldr = true) :
    ∀ l ∈ (["# " ++ date, "", "## :tldr: TLDR", "", tldr, ""] : List String),
      occursCI "What I did".data l.data = false := by
  have hd := cleanLine_facts _ hdate
  have ht := cleanLine_facts _ htldr
  refine List.forall_mem_cons.mpr ⟨hd.2.1, List.forall_mem_cons.mpr
    ⟨by decide, List.forall_mem_cons.mpr ⟨by decide, List.forall_mem_cons.mpr
      ⟨by decide, List.forall_mem_cons.mpr ⟨ht.2.1, List.forall_mem_cons.mpr
        ⟨by decide, by simp⟩⟩⟩⟩⟩⟩

theorem preLines3_facts (date tldr : String) (wid mw : List String)
    (hdate : cleanLine ("# " ++ date) = true)
    (htldr : cleanLine tldr = true)
    (hwid : ∀ s ∈ wid, goodItem s = true)
    (hmw : ∀ m ∈ mw, goodMeeting m = true) :
    ∀ l ∈ preLines3 date tldr wid mw,
      occursCI "prioritizing next week".data l.data = false := by
  have hd := cleanLine_facts _ hdate
  have ht := cleanLine_facts _ htldr
  unfold preLines3
  refine List.forall_mem_append.mpr ⟨?_, List.forall_mem_append.mpr
    ⟨?_, List.forall_mem_append.mpr ⟨mwBlock_noPri mw hmw, by decide⟩⟩⟩
  · refine List.forall_mem_cons.mpr ⟨hd.2.2, List.forall_mem_cons.mpr
      ⟨by decide, List.forall_mem_cons.mpr ⟨by decide, List.forall_mem_cons.mpr
        ⟨by decide, List.forall_mem_cons.mpr ⟨ht.2.2, List.forall_mem_cons.mpr
          ⟨by decide, List.forall_mem_cons.mpr ⟨by decide,
            List.forall_mem_cons.mpr ⟨by decide, by simp⟩⟩⟩⟩⟩⟩⟩⟩
  · intro l hl
    rw [List.mem_map] at hl
    obtain ⟨s, hs2, rfl⟩ := hl
    exact (goodItem_facts s (hwid s hs2)).2.2.2.1

/-- C7 (amended): for a report whose rendered lines are well formed — the
`# date` heading, the TLDR text, every `- item` bullet line and every
`> - title - [Add details]` quote line is single-line, free of `###` and of
the header substrings "What I did" / "prioritizing next week", and every
bullet item is non-empty, does not start with whitespace or a bullet
marker and does not end with whitespace — re-parsing the rendered markdown
recovers `priorities` exactly, while `whatIDid` comes back as
`whatIDid ++ priorities`: the renderer emits `##` headers but the parser
stops captures only at `###`, so the "What I did" capture runs to the end
of the text. -/
theorem C7_markdown_reparse (draft : Draft515) (today : String)
    (mm : List MatchedMeeting)
    (hdate : cleanLine ("# " ++ draft.date) = true)
    (htldr : cleanLine draft.tldr = true)
    (hwid : ∀ s ∈ draft.whatIDid, goodItem s = true)
    (hmw : ∀ m ∈ draft.meetingsWithoutNotes, goodMeeting m = true)
    (hpri : ∀ s ∈ draft.priorities, goodItem s = true) :
    (parseDraftResponse (formatDraftAsMarkdown draft) today mm).priorities =
      draft.priorities ∧
    (parseDraftResponse (formatDraftAsMarkdown draft) today mm).whatIDid =
      draft.whatIDid ++ draft.priorities := by
  have hmd1 : mdLines draft =
      (["# " ++ draft.date, "", "## :tldr: TLDR", "", draft.tldr, ""] :
        List String) ++
      "## ✅ What I did" ::
        bodyLines draft.whatIDid draft.meetingsWithoutNotes
          draft.priorities := by
    unfold mdLines bodyLines mwBlock
    simp [List.append_assoc]
  have hmd3 : mdLines draft =
      preLines3 draft.date draft.tldr draft.whatIDid
        draft.meetingsWithoutNotes ++
      "## 🏗️ What I am prioritizing next week" ::
        tailLines draft.priorities := by
    unfold mdLines preLines3 tailLines mwBlock
    simp [List.append_assoc]
  have hbodyF := bodyLines_facts draft.whatIDid draft.meetingsWithoutNotes
    draft.priorities hwid hmw hpri
  have hDLW := bodyLines_dropWhile_ne draft.whatIDid
    draft.meetingsWithoutNotes draft.priorities
  have hfcW : findCapture "What I did".data
      (formatDraftAsMarkdown draft).data =
      some ((joinNl ((bodyLines draft.whatIDid draft.meetingsWithoutNotes
        draft.priorities).dropWhile (fun l => l == ""))).data) := by
    show findCapture "What I did".data (joinNl (mdLines draft)).data = _
    rw [(by decide :
      ("What I did" : String).data = 'W' :: "hat I did".data)]
    rw [hmd1]
    have hb : bodyLines draft.whatIDid draft.meetingsWithoutNotes
        draft.priorities ≠ [] := by
      unfold bodyLines
      exact List.cons_ne_nil _ _
    exact findCapture_layout 'W' "hat I did".data (by decide) _
      "## ✅ What I did" "## ✅ ".data _ (by decide) (by decide)
      (preW_scan_facts draft.date draft.tldr hdate htldr) hb hDLW
      (fun l hl => (hbodyF l hl).2.2)
      (fun l hl => (hbodyF l ((List.dropWhile_sublist _).subset hl)).1)
  have hW : (parseDraftResponse (formatDraftAsMarkdown draft) today
      mm).whatIDid = draft.whatIDid ++ draft.priorities := by
    show (match findCapture "What I did".data
        (formatDraftAsMarkdown draft).data with
      | some c => parseBulletSection c
      | none => []) = draft.whatIDid ++ draft.priorities
    rw [hfcW]
    show parseBulletSection ((joinNl ((bodyLines draft.whatIDid
      draft.meetingsWithoutNotes draft.priorities).dropWhile
        (fun l => l == ""))).data) = draft.whatIDid ++ draft.priorities
    rw [parseBulletSection_eq_keptBullets]
    rw [splitNl_joinNl _ hDLW
      (fun l hl => (hbodyF l ((List.dropWhile_sublist _).subset hl)).2.1)]
    rw [keptBullets_drop_empty]
    exact keptBullets_bodyLines draft.whatIDid draft.meetingsWithoutNotes
      draft.priorities hwid hpri
  have hP : (parseDraftResponse (formatDraftAsMarkdown draft) today
      mm).priorities = draft.priorities := by
    show (match findCapture "prioritizing next week".data
        (formatDraftAsMarkdown draft).data with
      | some c => parseBulletSection c
      | none => []) = draft.priorities
    cases hPs : draft.priorities with
    | nil =>
      have hmd3n := hmd3
      rw [hPs] at hmd3n
      have hfcPn : findCapture "prioritizing next week".data
          (formatDraftAsMarkdown draft).data = some [] := by
        show findCapture "prioritizing next week".data
          (joinNl (mdLines draft)).data = some []
        rw [(by decide : ("prioritizing next week" : String).data =
          'p' :: "rioritizing next week".data)]
        rw [hmd3n]
        rw [(by decide : tailLines [] = ["", ""])]
        exact findCapture_layout_blank 'p' "rioritizing next week".data
          (by decide) _ "## 🏗️ What I am prioritizing next week"
          "## 🏗️ What I am ".data (by decide) (by decide)
          (preLines3_facts draft.date draft.tldr draft.whatIDid
            draft.meetingsWithoutNotes hdate htldr hwid hmw)
      rw [hfcPn]
      decide
    | cons p ps =>
      have hmd3c := hmd3
      rw [hPs] at hmd3c
      have hpri2 : ∀ s ∈ p :: ps, goodItem s = true := by
        rw [← hPs]
        exact hpri
      have htailF := tailLines_facts (p :: ps) hpri2
      have hDL3 := tailLines_dropWhile_ne p ps
      have hfcPc : findCapture "prioritizing next week".data
          (formatDraftAsMarkdown draft).data =
          some ((joinNl ((tailLines (p :: ps)).dropWhile
            (fun l => l == ""))).data) := by
        show findCapture "prioritizing next week".data
          (joinNl (mdLines draft)).data = _
        rw [(by decide : ("prioritizing next week" : String).data =
          'p' :: "rioritizing next week".data)]
        rw [hmd3c]
        have hb : tailLines (p :: ps) ≠ [] := by
          unfold tailLines
          exact List.cons_ne_nil _ _
        exact findCapture_layout 'p' "rioritizing next week".data
          (by decide) _ "## 🏗️ What I am prioritizing next week"
          "## 🏗️ What I am ".data _ (by decide) (by decide)
          (preLines3_facts draft.date draft.tldr draft.whatIDid
            draft.meetingsWithoutNotes hdate htldr hwid hmw) hb hDL3
          (fun l hl => (htailF l hl).2.2)
          (fun l hl => (htailF l ((List.dropWhile_sublist _).subset hl)).1)
      rw [hfcPc]
      show parseBulletSection ((joinNl ((tailLines (p :: ps)).dropWhile
        (fun l => l == ""))).data) = p :: ps
      rw [parseBulletSection_eq_keptBullets]
      rw [splitNl_joinNl _ hDL3
        (fun l hl => (htailF l ((List.dropWhile_sublist _).subset hl)).2.1)]
      rw [keptBullets_drop_empty]
      exact keptBullets_tailLines (p :: ps) hpri2
  exact ⟨hP, hW⟩

/-- Closed check for `C7_markdown_reparse` on the well-formed sample
report. -/
theorem C7_markdown_reparse_witness :
    (parseDraftResponse (formatDraftAsMarkdown roundtripDraft) "D"
      []).priorities = roundtripDraft.priorities ∧
    (parseDraftResponse (formatDraftAsMarkdown roundtripDraft) "D"
      []).whatIDid = roundtripDraft.whatIDid ++ roundtripDraft.priorities :=
  C7_markdown_reparse roundtripDraft "D" [] (by decide) (by decide)
    (by decide) (by decide) (by decide)

end FiveFifteen
